import Mathlib

/-!
# car-rfid: a shallow embedding of `src/main.cpp`

The firmware keeps a registry of up to ten 8-byte iButton keys in RAM
(`valid_keys`, `key_count`), mirrors it in EEPROM, resolves an operating mode
from two jumpers at boot and then, on every wake-up, reads one key frame and
dispatches on the mode.

Modelling conventions

* A byte is a `Nat`; the only byte arithmetic of the program (`key_count++`,
  `key_count--`, `mode += ...`) is reduced modulo 256 explicitly.
* A key is a `List Nat` holding 8 bytes.
* `valid_keys` is a function from the slot index to the 8 bytes found there.
  Indices `0..9` are the array `byte valid_keys[10][8]`.  The C expression
  `valid_keys[i]` with `i >= 10` addresses the RAM that follows the array;
  the model keeps those bytes under the same index, as part of the state, and
  assumes that no other variable of the program (`key_count`, `mode`) lives
  in them.
* Every call into the outside world (pins, buzzer, delays, EEPROM writes,
  sleep, reader commands) is appended to `trace`.
* Values read from the outside world (pin levels, the reader's bytes) are
  arguments of the function that reads them.
-/

namespace CarRfid

/-! ## Constants -/

abbrev READER_DELAY : Nat := 1000
abbrev LOCK_DELAY : Nat := 500
abbrev HIGH_TONE : Nat := 2000
abbrev LOW_TONE : Nat := 200

abbrev KEY_CNT_ADDR : Nat := 511
abbrev KEY_MAX_CNT : Nat := 10
abbrev KEY_LENGTH : Nat := 8
abbrev KEY_S_ADDR : Nat := 0

abbrev WAKEUP_PIN : Nat := 6
abbrev DALLAS_PIN : Nat := 7
abbrev LOCK_STATUS_PIN : Nat := 8
abbrev BUZZER_PIN : Nat := 9
abbrev JP1_PIN : Nat := 10
abbrev JP2_PIN : Nat := 11

abbrev MODE_NORMAL : Nat := 0
abbrev MODE_ADD : Nat := 1
abbrev MODE_REMOVE : Nat := 2
abbrev MODE_UNUSED : Nat := 3
abbrev MODE_WIPE : Nat := 4

/-- The relay pins: the first pair opens, the second pair closes. -/
abbrev RELAY_PINS : List Nat := [2, 3, 4, 5]

/-- The value of `sizeof(valid_keys)`: ten slots of eight bytes. -/
abbrev SIZEOF_VALID_KEYS : Nat := KEY_MAX_CNT * KEY_LENGTH

/-! ## Data model -/

/-- An iButton key: 8 bytes. -/
abbrev Key := List Nat

/-- The arguments of `pinMode`. -/
inductive PinMode
  | INPUT
  | OUTPUT
  | INPUT_PULLUP
  deriving DecidableEq, Repr

/-- One call into the hardware, in program order. -/
inductive Event
  | pinMode (pin : Nat) (m : PinMode)
  | digitalWrite (pin : Nat) (high : Bool)
  | delay (ms : Nat)
  | tone (pin freq : Nat)
  | noTone (pin : Nat)
  | eepromWrite (addr : Nat) (data : List Nat)
  | digitalRead (pin : Nat) (high : Bool)
  | powerDown
  | dsReset (present : Bool)
  | dsWrite (cmd : Nat)
  | dsRead (byte : Nat)
  | enablePCINT (pin : Nat)
  deriving DecidableEq, Repr

/-- The globals of the program, the EEPROM, the output pins and the log of
hardware calls. -/
structure State where
  mode : Nat
  key_count : Nat
  valid_keys : Nat → Key
  eeprom : Nat → Nat
  pins : Nat → Bool
  trace : List Event

/-- The all-zero key. -/
def zeroKey : Key := List.replicate KEY_LENGTH 0

/-- Every slot the program can address holds exactly 8 bytes. -/
def SlotsWF (s : State) : Prop := ∀ i, (s.valid_keys i).length = KEY_LENGTH

/-- The live entries: slots `0 .. key_count - 1`, in order. -/
def liveKeys (s : State) : List Key := (List.range s.key_count).map s.valid_keys

/-! ## Primitive operations -/

/-- The test `memcmp(a, b, KEY_LENGTH) == 0`: the first 8 bytes agree. -/
def memcmpEq (a b : Key) : Bool :=
  (List.range KEY_LENGTH).all fun j => a.getD j 0 == b.getD j 0

/-- The 8 bytes `src[0] .. src[7]`, as written by a byte-by-byte copy loop
`for (j = 0; j < KEY_LENGTH; j++) dst[j] = src[j]`. -/
def copyKey (src : Key) : Key :=
  (List.range KEY_LENGTH).map fun j => src.getD j 0

/-- Append one hardware call to the log. -/
def emit (s : State) (e : Event) : State :=
  { s with trace := s.trace ++ [e] }

/-- The 80 bytes of the array `valid_keys`, in memory order. -/
def arrayBytes (vk : Nat → Key) : List Nat :=
  (List.range SIZEOF_VALID_KEYS).map fun a => (vk (a / KEY_LENGTH)).getD (a % KEY_LENGTH) 0

/-- EEPROM contents after writing `data` at `addr`. -/
def eepromStore (e : Nat → Nat) (addr : Nat) (data : List Nat) : Nat → Nat :=
  fun a => if addr ≤ a ∧ a < addr + data.length then data.getD (a - addr) 0 else e a

/-- Writing a block of bytes: `EEPROM.put(addr, data)`, and for one byte
`EEPROM.update(addr, v)`. -/
def eepromPut (s : State) (addr : Nat) (data : List Nat) : State :=
  emit { s with eeprom := eepromStore s.eeprom addr data } (Event.eepromWrite addr data)

/-- Reading the array back: `EEPROM.get(KEY_S_ADDR, valid_keys)` overwrites
the ten slots of the array and nothing else. -/
def eepromGetKeys (s : State) : State :=
  { s with valid_keys := fun i =>
      if i < KEY_MAX_CNT then
        (List.range KEY_LENGTH).map fun j => s.eeprom (KEY_S_ADDR + i * KEY_LENGTH + j)
      else s.valid_keys i }

/-! ## The key registry -/

/-- Source `keyIsValid`: scan the slots `0 .. sizeof(valid_keys)/KEY_LENGTH - 1`
and stop at the first one equal to `key`. -/
def keyIsValid (s : State) (key : Key) : Bool :=
  (List.range (SIZEOF_VALID_KEYS / KEY_LENGTH)).any fun i => memcmpEq key (s.valid_keys i)

/-- Source `addKey`. -/
def addKey (s : State) (key : Key) : Bool × State :=
  if keyIsValid s key then (false, s)
  else if s.key_count = KEY_MAX_CNT then (false, s)
  else
    let s1 := { s with valid_keys := Function.update s.valid_keys s.key_count (copyKey key) }
    let s2 := eepromPut s1 KEY_S_ADDR (arrayBytes s1.valid_keys)
    let s3 := { s2 with key_count := (s2.key_count + 1) % 256 }
    (true, eepromPut s3 KEY_CNT_ADDR [s3.key_count])

/-- The loop of `removeKey`, `n` iterations starting at index `i`: once a slot
equal to `key` has been seen, every slot `i` is overwritten by slot `i + 1`. -/
def removeKeyLoop (key : Key) : Nat → Nat → Bool × (Nat → Key) → Bool × (Nat → Key)
  | 0, _, st => st
  | n + 1, i, (flag, vk) =>
    if flag || memcmpEq key (vk i) then
      removeKeyLoop key n (i + 1) (true, Function.update vk i (copyKey (vk (i + 1))))
    else
      removeKeyLoop key n (i + 1) (flag, vk)

/-- Source `removeKey`. -/
def removeKey (s : State) (key : Key) : Bool × State :=
  let r := removeKeyLoop key (SIZEOF_VALID_KEYS / KEY_LENGTH) 0 (false, s.valid_keys)
  let s1 := { s with valid_keys := r.2 }
  if r.1 then
    let s2 := { s1 with valid_keys := Function.update s1.valid_keys s1.key_count zeroKey }
    let s3 := eepromPut s2 KEY_S_ADDR (arrayBytes s2.valid_keys)
    let s4 := { s3 with key_count := (s3.key_count + 255) % 256 }
    (true, eepromPut s4 KEY_CNT_ADDR [s4.key_count])
  else (false, s1)

/-- Source `wipeEEPROM`: clear the count byte, then the 80 key bytes. -/
def wipeEEPROM (s : State) : State :=
  eepromPut (eepromPut s KEY_CNT_ADDR [0]) KEY_S_ADDR (List.replicate SIZEOF_VALID_KEYS 0)

/-! ## Pins, buzzer and lock -/

/-- Arduino `pinMode`. -/
def pinMode (s : State) (pin : Nat) (m : PinMode) : State :=
  emit s (Event.pinMode pin m)

/-- Arduino `digitalWrite`; `true` is HIGH. -/
def digitalWrite (s : State) (pin : Nat) (high : Bool) : State :=
  emit { s with pins := Function.update s.pins pin high } (Event.digitalWrite pin high)

/-- Arduino `digitalRead`; the level `high` comes from the environment. -/
def digitalRead (s : State) (pin : Nat) (high : Bool) : State :=
  emit s (Event.digitalRead pin high)

/-- Source `moveLock`: both pins LOW, wait, both pins HIGH. -/
def moveLock (s : State) (pin1 pin2 : Nat) : State :=
  let s1 := digitalWrite s pin1 false
  let s2 := digitalWrite s1 pin2 false
  let s3 := emit s2 (Event.delay LOCK_DELAY)
  let s4 := digitalWrite s3 pin1 true
  digitalWrite s4 pin2 true

/-- The macro `OPEN_LOCK`. -/
def OPEN_LOCK (s : State) : State :=
  moveLock s (RELAY_PINS.getD 0 0) (RELAY_PINS.getD 1 0)

/-- The macro `CLOSE_LOCK`. -/
def CLOSE_LOCK (s : State) : State :=
  moveLock s (RELAY_PINS.getD 2 0) (RELAY_PINS.getD 3 0)

/-- One pass of the body of the loop of `modeBeep`. -/
def beepOnce (s : State) : State :=
  emit (emit (emit (emit s (Event.tone BUZZER_PIN 1000)) (Event.delay 50))
    (Event.noTone BUZZER_PIN)) (Event.delay 50)

/-- Source `modeBeep`: `mode` short beeps. -/
def modeBeep (s : State) : Nat → State
  | 0 => s
  | n + 1 => modeBeep (beepOnce s) n

/-- Source `lockHandler`.  `opened1` is the level of `LOCK_STATUS_PIN` read
before the pulse, `opened2` the level read after it (HIGH means opened). -/
def lockHandler (s : State) (key : Key) (opened1 opened2 : Bool) : Bool × State :=
  if keyIsValid s key then
    let s1 := digitalRead s LOCK_STATUS_PIN opened1
    if opened1 then
      let s2 := digitalRead (CLOSE_LOCK s1) LOCK_STATUS_PIN opened2
      if !opened2 then (true, s2) else (false, s2)
    else
      let s2 := digitalRead (OPEN_LOCK s1) LOCK_STATUS_PIN opened2
      if opened2 then (true, s2) else (false, s2)
  else (false, s)

/-! ## Boot -/

/-- The C value of `!digitalRead(pin)`: 1 when the level is LOW. -/
def notLevel (high : Bool) : Nat := if high then 0 else 1

/-- Lines 226-235 of `setup`: the mode from the jumpers.  `jp1` and `jp2` are
the levels read first, `probe` is the level of JP2 read while JP1 is driven
LOW (read only when the mode is still 0). -/
def readJumpers (s : State) (jp1 jp2 probe : Bool) : State :=
  let s1 := pinMode s JP1_PIN PinMode.INPUT_PULLUP
  let s2 := pinMode s1 JP2_PIN PinMode.INPUT_PULLUP
  let s3 := digitalRead s2 JP1_PIN jp1
  let s4 := { s3 with mode := (s3.mode + notLevel jp1) % 256 }
  let s5 := digitalRead s4 JP2_PIN jp2
  let s6 := { s5 with mode := (s5.mode + notLevel jp2 * 2) % 256 }
  if s6.mode = 0 then
    let s7 := pinMode s6 JP1_PIN PinMode.OUTPUT
    let s8 := digitalWrite s7 JP1_PIN false
    let s9 := digitalRead s8 JP2_PIN probe
    { s9 with mode := (s9.mode + notLevel probe * 4) % 256 }
  else s6

/-- Lines 238-253 of `setup`: wipe on request, read the count, wipe on a
count out of range, read the keys. -/
def loadKeys (s : State) : State :=
  let s1 := if s.mode = MODE_WIPE then wipeEEPROM s else s
  let s2 := { s1 with key_count := s1.eeprom KEY_CNT_ADDR }
  let s3 := if s2.key_count > KEY_MAX_CNT then wipeEEPROM { s2 with key_count := 0 } else s2
  eepromGetKeys s3

/-- Lines 218-223 of `setup`: the relay pins become outputs at HIGH (relay
off), the lock sensor pin an input. -/
def initPins (s : State) : State :=
  let s1 := RELAY_PINS.foldl
    (fun st pin => digitalWrite (pinMode st pin PinMode.OUTPUT) pin true) s
  pinMode s1 LOCK_STATUS_PIN PinMode.INPUT_PULLUP

/-- Lines 261-268 of `setup`: the wake-up interrupt, the startup beep and
the mode beeps. -/
def startupBeep (s : State) : State :=
  let s1 := pinMode s WAKEUP_PIN PinMode.INPUT_PULLUP
  let s2 := emit s1 (Event.enablePCINT WAKEUP_PIN)
  let s3 := emit s2 (Event.tone BUZZER_PIN 500)
  let s4 := emit s3 (Event.delay 50)
  let s5 := emit s4 (Event.noTone BUZZER_PIN)
  modeBeep s5 s5.mode

/-- Source `setup`: its four blocks in order. -/
def setup (s : State) (jp1 jp2 probe : Bool) : State :=
  startupBeep (loadKeys (readJumpers (initPins s) jp1 jp2 probe))

/-! ## The main loop -/

/-- What one wake-up receives from the outside world. -/
structure LoopInput where
  /-- the result of `ds.reset()`: a device answered -/
  present : Bool
  /-- the 8 bytes returned by the calls of `ds.read()` -/
  key_buf : Key
  /-- the level of `LOCK_STATUS_PIN` at the first read of `lockHandler` -/
  opened1 : Bool
  /-- the level of `LOCK_STATUS_PIN` at the second read of `lockHandler` -/
  opened2 : Bool
  /-- the value found in the uninitialised local `res` -/
  resGarbage : Bool

/-- The test of line 288: family byte and checksum.  `crc8` is the checksum
of the OneWire library, applied to the first 7 bytes. -/
def frameOk (crc8 : List Nat → Nat) (key_buf : Key) : Bool :=
  key_buf.getD 0 0 == 0x01 && key_buf.getD (KEY_LENGTH - 1) 0 == crc8 (key_buf.take (KEY_LENGTH - 1))

/-- The `switch (mode)` of `loop`; in the default branch `res` keeps the
value it had. -/
def dispatch (s : State) (inp : LoopInput) : Bool × State :=
  if s.mode = MODE_NORMAL then lockHandler s inp.key_buf inp.opened1 inp.opened2
  else if s.mode = MODE_ADD then addKey s inp.key_buf
  else if s.mode = MODE_REMOVE then removeKey s inp.key_buf
  else (inp.resGarbage, s)

/-- Lines 305-311 of `loop`: the mode beeps, then the result tone. -/
def feedback (s : State) (res : Bool) : State :=
  let s1 := modeBeep s s.mode
  let toneFreq := if res then HIGH_TONE else LOW_TONE
  let s2 := emit s1 (Event.tone BUZZER_PIN toneFreq)
  let s3 := emit s2 (Event.delay READER_DELAY)
  emit s3 (Event.noTone BUZZER_PIN)

/-- Lines 283-286 of `loop`: the 8 calls of `ds.read()` that fill `key_buf`. -/
def readKey (s : State) (key_buf : Key) : State :=
  (List.range KEY_LENGTH).foldl (fun st i => emit st (Event.dsRead (key_buf.getD i 0))) s

/-- Source `loop`: one iteration. -/
def loop (crc8 : List Nat → Nat) (s : State) (inp : LoopInput) : State :=
  let s1 := emit s Event.powerDown
  let s2 := emit s1 (Event.delay 50)
  let s3 := emit s2 (Event.dsReset inp.present)
  if inp.present then
    let s4 := emit s3 (Event.dsWrite 0x33)
    let s5 := readKey s4 inp.key_buf
    if frameOk crc8 inp.key_buf then
      let r := dispatch s5 inp
      feedback r.2 r.1
    else s5
  else s3

/-! ## Sample data -/

/-- RAM and EEPROM all zero, nothing logged: the registry as it is after a
wipe and a boot. -/
def zeroState : State :=
  { mode := 0, key_count := 0, valid_keys := fun _ => zeroKey, eeprom := fun _ => 0,
    pins := fun _ => true, trace := [] }

/-- A key with family byte 0x01. -/
def keyA : Key := [1, 10, 11, 12, 13, 14, 15, 16]

/-- A second key with family byte 0x01. -/
def keyB : Key := [1, 20, 21, 22, 23, 24, 25, 26]

/-- A third key with family byte 0x01. -/
def keyC : Key := [1, 30, 31, 32, 33, 34, 35, 36]

/-- The slots of a registry holding `keyA`, `keyB`, `keyC` and zeroes after them. -/
def slotsABC : Nat → Key := fun i =>
  if i = 0 then keyA else if i = 1 then keyB else if i = 2 then keyC else zeroKey

/-- A registry with the three live entries `keyA`, `keyB`, `keyC`. -/
def stateABC : State :=
  { zeroState with key_count := 3, valid_keys := slotsABC }

/-- The slots of a registry holding `keyA`, `keyB` and zeroes after them. -/
def slotsAB : Nat → Key := fun i =>
  if i = 0 then keyA else if i = 1 then keyB else zeroKey

/-- A registry with the two live entries `keyA`, `keyB`. -/
def stateAB : State :=
  { zeroState with key_count := 2, valid_keys := slotsAB }

/-! ## Histories of registry calls -/

/-- One call on the registry. -/
inductive Op
  | add (key : Key)
  | remove (key : Key)
  deriving DecidableEq, Repr

/-- The key a call is about. -/
def Op.key : Op → Key
  | Op.add k => k
  | Op.remove k => k

/-- Run one call. -/
def applyOp (s : State) : Op → Bool × State
  | Op.add k => addKey s k
  | Op.remove k => removeKey s k

/-- Run a sequence of calls, first to last. -/
def runOps (s : State) : List Op → State
  | [] => s
  | op :: ops => runOps (applyOp s op).2 ops

/-- What the history says about token `t`: `acc` becomes true at every
`addKey(t)` that returns true and false at every `removeKey(t)`; at the end
it is true exactly when some `addKey(t)` returned true and no `removeKey(t)`
was called after the last such `addKey(t)`. -/
def registeredAfter (t : Key) : State → Bool → List Op → Bool
  | _, acc, [] => acc
  | s, acc, Op.add k :: ops =>
    registeredAfter t (addKey s k).2 (if k = t ∧ (addKey s k).1 = true then true else acc) ops
  | s, acc, Op.remove k :: ops =>
    registeredAfter t (removeKey s k).2 (if k = t then false else acc) ops

/-- A token as `loop` lets it through: 8 bytes, the first one 0x01. -/
def IsToken (k : Key) : Prop := k.length = KEY_LENGTH ∧ k.getD 0 0 = 0x01

/-- The wiped registry in a RAM where the 8 bytes that follow the array
`valid_keys` happen to hold the bytes of `keyB`. -/
def strayState : State :=
  { zeroState with valid_keys := fun i => if i = KEY_MAX_CNT then keyB else zeroKey }

/-- The registry invariant under which the unused slots are harmless: ten
8-byte slots, `key_count <= 10`, the live entries pairwise distinct and with
family byte 0x01, and no slot from `key_count` up to and including the one
after the array (index 10) with family byte 0x01. -/
def RegInv (s : State) : Prop :=
  SlotsWF s ∧ s.key_count ≤ KEY_MAX_CNT ∧ (liveKeys s).Nodup ∧
  (∀ x, x ∈ liveKeys s → x.getD 0 0 = 0x01) ∧
  (∀ i, s.key_count ≤ i → i ≤ KEY_MAX_CNT → (s.valid_keys i).getD 0 0 ≠ 0x01)

/-! ## Closed forms used in the proofs -/

/-- The slots after the shift that starts at index `p` and ends at index
`e - 1`: every slot in that range takes the bytes of its successor. -/
def shiftedSlots (vk : Nat → Key) (p e : Nat) : Nat → Key :=
  fun x => if p ≤ x ∧ x < e then vk (x + 1) else vk x

/-- The state `removeKey` returns when the first slot equal to the key is
slot `p`: slots `p .. 9` shifted, slot `key_count` zeroed, array and count
written to EEPROM. -/
def removedAt (s : State) (p : Nat) : State :=
  let vk := Function.update (shiftedSlots s.valid_keys p KEY_MAX_CNT) s.key_count zeroKey
  let kc := (s.key_count + 255) % 256
  { s with
    key_count := kc
    valid_keys := vk
    eeprom := eepromStore (eepromStore s.eeprom KEY_S_ADDR (arrayBytes vk)) KEY_CNT_ADDR [kc]
    trace := s.trace ++ [Event.eepromWrite KEY_S_ADDR (arrayBytes vk),
      Event.eepromWrite KEY_CNT_ADDR [kc]] }

/-- The hardware calls of `n` mode beeps. -/
def beepEvents : Nat → List Event
  | 0 => []
  | n + 1 => [Event.tone BUZZER_PIN 1000, Event.delay 50, Event.noTone BUZZER_PIN,
      Event.delay 50] ++ beepEvents n

/-- The hardware calls of the start of `setup`: the relay pins are made
outputs and driven HIGH, the lock sensor pin is made an input. -/
def relayInitEvents : List Event :=
  [Event.pinMode 2 PinMode.OUTPUT, Event.digitalWrite 2 true,
   Event.pinMode 3 PinMode.OUTPUT, Event.digitalWrite 3 true,
   Event.pinMode 4 PinMode.OUTPUT, Event.digitalWrite 4 true,
   Event.pinMode 5 PinMode.OUTPUT, Event.digitalWrite 5 true]

/-- The hardware calls of one `moveLock(pin1, pin2)`: one pulse. -/
def pulseEvents (pin1 pin2 : Nat) : List Event :=
  [Event.digitalWrite pin1 false, Event.digitalWrite pin2 false, Event.delay LOCK_DELAY,
   Event.digitalWrite pin1 true, Event.digitalWrite pin2 true]

/-- The hardware calls of `loop` up to the frame check when a device answers:
sleep, settle delay, reset, read command and the 8 reads. -/
def readerEvents (inp : LoopInput) : List Event :=
  [Event.powerDown, Event.delay 50, Event.dsReset inp.present, Event.dsWrite 0x33] ++
    (List.range KEY_LENGTH).map fun i => Event.dsRead (inp.key_buf.getD i 0)

/-- The hardware calls of the result tone. -/
def resultEvents (res : Bool) : List Event :=
  [Event.tone BUZZER_PIN (if res then HIGH_TONE else LOW_TONE), Event.delay READER_DELAY,
   Event.noTone BUZZER_PIN]

/-- The hardware calls made between state `s` and the later state `t`. -/
def newEvents (s t : State) : List Event := t.trace.drop s.trace.length

/-- A call of `tone`. -/
def Event.isTone : Event → Bool
  | Event.tone _ _ => true
  | _ => false

/-- The family byte is 0x01 and byte 7 is the checksum of bytes 0..6. -/
def ValidFrame (crc8 : List Nat → Nat) (inp : LoopInput) : Prop :=
  inp.present = true ∧ inp.key_buf.getD 0 0 = 0x01 ∧
    inp.key_buf.getD 7 0 = crc8 (inp.key_buf.take 7)

/-! ## Further definitions for the boot and the invariants -/

/-- Lines 244-253 of `setup`, the boot load: read the count byte, wipe when
it is out of range, read the key region into `valid_keys`. -/
def bootLoad (s : State) : State :=
  let s2 := { s with key_count := s.eeprom KEY_CNT_ADDR }
  let s3 := if s2.key_count > KEY_MAX_CNT then wipeEEPROM { s2 with key_count := 0 } else s2
  eepromGetKeys s3

/-- The first `n` entries of the persisted key region, as `EEPROM.get` reads
them. -/
def persistedKeys (e : Nat → Nat) (n : Nat) : List Key :=
  (List.range n).map fun i =>
    (List.range KEY_LENGTH).map fun j => e (KEY_S_ADDR + i * KEY_LENGTH + j)

/-- The predicate of the capacity and no-duplicate invariant: `key_count <= 10`
and the live entries pairwise distinct. -/
def CountDistinct (s : State) : Prop :=
  s.key_count ≤ KEY_MAX_CNT ∧ (liveKeys s).Nodup

/-- An EEPROM holding the count byte 2 over a key region of zero bytes. -/
def dupStore : State :=
  { zeroState with eeprom := fun a => if a = KEY_CNT_ADDR then 2 else 0 }

/-- The EEPROM and the log agree with RAM after a registry write: the log
grew by the array write at address 0 followed by the count write at address
511, the 80 persisted key bytes are those of `valid_keys` and the persisted
count byte is `key_count`. -/
def PersistedInOrder (s t : State) : Prop :=
  newEvents s t = [Event.eepromWrite KEY_S_ADDR (arrayBytes t.valid_keys),
    Event.eepromWrite KEY_CNT_ADDR [t.key_count]] ∧
  (arrayBytes t.valid_keys).length = SIZEOF_VALID_KEYS ∧
  (∀ a, a < SIZEOF_VALID_KEYS → t.eeprom (KEY_S_ADDR + a) = (arrayBytes t.valid_keys).getD a 0) ∧
  t.eeprom KEY_CNT_ADDR = t.key_count

/-- The registry `keyA, keyB` in Unused mode. -/
def unusedState : State := { stateAB with mode := MODE_UNUSED }

/-- A frame carrying `keyA` in which the uninitialised `res` holds `garbage`;
it is valid for a checksum function that returns 16. -/
def frameA (garbage : Bool) : LoopInput :=
  { present := true, key_buf := keyA, opened1 := false, opened2 := false,
    resGarbage := garbage }

/-- The token `01 i 00 00 00 00 00 00`. -/
def tokenN (i : Nat) : Key := [1, i, 0, 0, 0, 0, 0, 0]

/-- A full registry, `tokenN 0 .. tokenN 9`, in a RAM where the 8 bytes after
the array hold the bytes of `keyB`. -/
def fullStrayState : State :=
  { zeroState with key_count := 10,
                   valid_keys := fun i => if i < KEY_MAX_CNT then tokenN i else keyB }

/-- The live entries `keyA, keyB` with the bytes of `keyC` left in the unused
slot 2. -/
def staleState : State := { stateABC with key_count := 2 }

/-- The registry `keyA, keyB` in Add mode. -/
def addModeState : State := { stateAB with mode := MODE_ADD }

/-- The hardware calls of one mode beep: 1000 Hz on for 50 ms, off for 50 ms. -/
def beepPulse : List Event :=
  [Event.tone BUZZER_PIN 1000, Event.delay 50, Event.noTone BUZZER_PIN, Event.delay 50]

/-- The list `xs` repeated `n` times. -/
def repeatEvents (xs : List Event) : Nat → List Event
  | 0 => []
  | n + 1 => xs ++ repeatEvents xs n

/-! ## The slot indices the registry functions use

Each function below follows the control flow of its source function and
returns, in program order, the index `i` of every expression `valid_keys[i]`
that the function evaluates.  `EEPROM.put(KEY_S_ADDR, valid_keys)` takes the
array as one object and is not listed. -/

/-- The indices used by the loop of `keyIsValid`: `valid_keys[i]` for each `i`
up to the first match. -/
def keyIsValidIdx (vk : Nat → Key) (key : Key) : Nat → Nat → List Nat
  | 0, _ => []
  | n + 1, i => i :: (if memcmpEq key (vk i) then [] else keyIsValidIdx vk key n (i + 1))

/-- The indices used by `keyIsValid`. -/
def keyIsValidAccess (s : State) (key : Key) : List Nat :=
  keyIsValidIdx s.valid_keys key (SIZEOF_VALID_KEYS / KEY_LENGTH) 0

/-- The indices used by `addKey`: those of `keyIsValid`, then
`valid_keys[key_count]` when the key is stored. -/
def addKeyAccess (s : State) (key : Key) : List Nat :=
  keyIsValidAccess s key ++
    (if keyIsValid s key then [] else if s.key_count = KEY_MAX_CNT then [] else [s.key_count])

/-- The indices used by the loop of `removeKey`: `valid_keys[i]` in the
`memcmp` (evaluated only while `flag` is false), then `valid_keys[i]` and
`valid_keys[i + 1]` in the copy. -/
def removeKeyLoopIdx (key : Key) : Nat → Nat → Bool × (Nat → Key) → List Nat
  | 0, _, _ => []
  | n + 1, i, (flag, vk) =>
    (if flag then [] else [i]) ++
      (if flag || memcmpEq key (vk i) then
        [i, i + 1] ++
          removeKeyLoopIdx key n (i + 1) (true, Function.update vk i (copyKey (vk (i + 1))))
      else
        removeKeyLoopIdx key n (i + 1) (flag, vk))

/-- The indices used by `removeKey`: those of its loop, then
`valid_keys[key_count]` when a match was found. -/
def removeKeyAccess (s : State) (key : Key) : List Nat :=
  removeKeyLoopIdx key (SIZEOF_VALID_KEYS / KEY_LENGTH) 0 (false, s.valid_keys) ++
    (if (removeKeyLoop key (SIZEOF_VALID_KEYS / KEY_LENGTH) 0 (false, s.valid_keys)).1
      then [s.key_count] else [])

/-- All four relay outputs are HIGH: no solenoid is energised. -/
def RelaysHigh (s : State) : Prop := ∀ pin, pin ∈ RELAY_PINS → s.pins pin = true

/-- The iterations of `loop`, one per wake-up, in order. -/
def runLoops (crc8 : List Nat → Nat) (s : State) : List LoopInput → State
  | [] => s
  | inp :: rest => runLoops crc8 (loop crc8 s inp) rest

/-! ## A token left in an unused slot

`addKey` writes the array to the EEPROM (line 133) before it writes the count
(line 135).  A power loss between the two leaves the new key in the persisted
array under the old count, and the next boot loads it into a slot at an index
`>= key_count`. -/

/-- Lines 129-133 of `addKey`: the key copied into slot `key_count` and the
array written to the EEPROM; `key_count++` and the count write have not
happened yet. -/
def addKeyCut (s : State) (key : Key) : State :=
  let s1 := { s with valid_keys := Function.update s.valid_keys s.key_count (copyKey key) }
  eepromPut s1 KEY_S_ADDR (arrayBytes s1.valid_keys)

/-- Power-on reset: the globals are zero again, the EEPROM keeps its bytes. -/
def reboot (s : State) : State := { zeroState with eeprom := s.eeprom }

/-- The device after `addKey(keyA)` on the wiped registry was cut by a power
loss between line 133 and line 135. -/
def cutStore : State := reboot (addKeyCut zeroState keyA)

/-- The next boot with no jumper: Normal mode. -/
def bootNormal : State := setup cutStore true true true

/-- The next boot with the JP1 jumper: Add mode. -/
def bootAdd : State := setup cutStore false true true

/-- The next boot with the JP2 jumper: Remove mode. -/
def bootRemove : State := setup cutStore true false true

/-- A frame carrying `keyA` while the lock sensor reads Closed before the
pulse and Opened after it; it is valid for a checksum function that returns
16. -/
def frameAOpen : LoopInput :=
  { present := true, key_buf := keyA, opened1 := false, opened2 := true, resGarbage := false }

/-- A frame carrying `keyB`, the sensor Closed before the pulse and Opened
after it; it is valid for a checksum function that returns 26. -/
def frameBOpen : LoopInput :=
  { present := true, key_buf := keyB, opened1 := false, opened2 := true, resGarbage := false }

/-! ## Basic facts -/

theorem memcmpEq_iff (a b : Key) (ha : a.length = KEY_LENGTH) (hb : b.length = KEY_LENGTH) :
    memcmpEq a b = true ↔ a = b := by
  constructor
  · intro h
    apply List.ext_getElem (by rw [ha, hb])
    intro j h1 h2
    simp only [memcmpEq, List.all_eq_true, List.mem_range, beq_iff_eq] at h
    have hj : j < KEY_LENGTH := by rw [← ha]; exact h1
    have := h j hj
    rw [List.getD_eq_getElem _ _ h1, List.getD_eq_getElem _ _ h2] at this
    exact this
  · rintro rfl
    simp [memcmpEq]

theorem copyKey_length (a : Key) : (copyKey a).length = KEY_LENGTH := by
  simp [copyKey]

theorem copyKey_eq (a : Key) (ha : a.length = KEY_LENGTH) : copyKey a = a := by
  apply List.ext_getElem (by rw [copyKey_length, ha])
  intro j h1 h2
  simp [copyKey, List.getElem?_eq_getElem h2]

theorem zeroKey_length : zeroKey.length = KEY_LENGTH := by
  simp [zeroKey]

theorem slotsWF_zeroState : SlotsWF zeroState := by
  intro i
  simp [zeroState, zeroKey]

theorem slotsWF_stateABC : SlotsWF stateABC := by
  intro i
  simp only [stateABC, slotsABC]
  split_ifs <;> rfl

theorem slotsWF_stateAB : SlotsWF stateAB := by
  intro i
  simp only [stateAB, slotsAB]
  split_ifs <;> rfl

theorem keyIsValid_iff (s : State) (key : Key) (hs : SlotsWF s)
    (hk : key.length = KEY_LENGTH) :
    keyIsValid s key = true ↔ ∃ i, i < KEY_MAX_CNT ∧ s.valid_keys i = key := by
  simp only [keyIsValid, List.any_eq_true, List.mem_range]
  constructor
  · rintro ⟨i, hi, h⟩
    exact ⟨i, hi, ((memcmpEq_iff key _ hk (hs i)).1 h).symm⟩
  · rintro ⟨i, hi, h⟩
    exact ⟨i, hi, (memcmpEq_iff key _ hk (hs i)).2 h.symm⟩

/-! ## What `keyIsValid` scans -/

/-- The function `keyIsValid` returns true if and only if some slot of the
whole array (index below 10, whatever `key_count` is) is byte-equal to `key`;
in particular every live entry is accepted. -/
theorem keyIsValid_scans_all_slots (s : State) (key : Key) (hs : SlotsWF s)
    (hc : s.key_count ≤ KEY_MAX_CNT) (hk : key.length = KEY_LENGTH) :
    (keyIsValid s key = true ↔ ∃ i, i < KEY_MAX_CNT ∧ s.valid_keys i = key) ∧
    ((∃ i, i < s.key_count ∧ s.valid_keys i = key) → keyIsValid s key = true) := by
  have h := keyIsValid_iff s key hs hk
  refine ⟨h, ?_⟩
  rintro ⟨i, hi, hi2⟩
  exact h.2 ⟨i, Nat.lt_of_lt_of_le hi hc, hi2⟩

/-- The scan at the registry holding three keys. -/
theorem keyIsValid_scans_all_slots_sample :
    SlotsWF stateABC ∧ stateABC.key_count ≤ KEY_MAX_CNT ∧ keyB.length = KEY_LENGTH ∧
    (keyIsValid stateABC keyB = true ↔ ∃ i, i < KEY_MAX_CNT ∧ stateABC.valid_keys i = keyB) ∧
    ((∃ i, i < stateABC.key_count ∧ stateABC.valid_keys i = keyB) →
      keyIsValid stateABC keyB = true) :=
  ⟨slotsWF_stateABC, by decide, by decide,
    keyIsValid_scans_all_slots stateABC keyB slotsWF_stateABC (by decide) (by decide)⟩

/-! ## The loop of `removeKey` -/

theorem removeKeyLoop_flag (key : Key) (n : Nat) :
    ∀ (i : Nat) (vk : Nat → Key), (∀ x, (vk x).length = KEY_LENGTH) →
      removeKeyLoop key n i (true, vk) = (true, shiftedSlots vk i (i + n)) := by
  induction n with
  | zero =>
    intro i vk _
    have e : shiftedSlots vk i (i + 0) = vk := by
      funext x
      have : ¬ (i ≤ x ∧ x < i + 0) := by omega
      simp only [shiftedSlots, this, if_false]
    rw [e]
    rfl
  | succ n ih =>
    intro i vk hvk
    have hwf : ∀ x, (Function.update vk i (copyKey (vk (i + 1))) x).length = KEY_LENGTH := by
      intro x
      by_cases hx : x = i
      · subst hx; simp [copyKey_length]
      · simp [Function.update_noteq hx, hvk x]
    simp only [removeKeyLoop, Bool.true_or, if_true]
    rw [ih (i + 1) _ hwf]
    congr 1
    funext x
    simp only [shiftedSlots, copyKey_eq _ (hvk (i + 1))]
    by_cases h1 : i + 1 ≤ x
    · have h2 : x + 1 ≠ i := by omega
      have h3 : x ≠ i := by omega
      have h4 : i ≤ x := by omega
      by_cases h5 : x < i + 1 + n
      · have h6 : x < i + (n + 1) := by omega
        simp [h1, h4, h5, h6, Function.update_noteq h2]
      · have h6 : ¬ x < i + (n + 1) := by omega
        simp [h5, h6, Function.update_noteq h3]
    · by_cases h3 : x = i
      · subst h3
        have h6 : x < x + (n + 1) := by omega
        simp [h1, h6]
      · have h4 : ¬ i ≤ x := by omega
        simp [h1, h4, Function.update_noteq h3]

theorem removeKeyLoop_none (key : Key) (n : Nat) :
    ∀ (i : Nat) (vk : Nat → Key),
      (∀ x, i ≤ x → x < i + n → memcmpEq key (vk x) = false) →
      removeKeyLoop key n i (false, vk) = (false, vk) := by
  induction n with
  | zero => intro i vk _; rfl
  | succ n ih =>
    intro i vk h
    have h0 : memcmpEq key (vk i) = false := h i (Nat.le_refl i) (by omega)
    simp only [removeKeyLoop, h0, Bool.or_self, Bool.false_eq_true, if_false]
    exact ih (i + 1) vk (fun x h1 h2 => h x (by omega) (by omega))

theorem removeKeyLoop_first (key : Key) (p : Nat) (n : Nat) :
    ∀ (i : Nat) (vk : Nat → Key), (∀ x, (vk x).length = KEY_LENGTH) →
      i ≤ p → p < i + n →
      (∀ x, i ≤ x → x < p → memcmpEq key (vk x) = false) →
      memcmpEq key (vk p) = true →
      removeKeyLoop key n i (false, vk) = (true, shiftedSlots vk p (i + n)) := by
  induction n with
  | zero => intro i vk _ h1 h2; omega
  | succ n ih =>
    intro i vk hvk h1 h2 hno hp
    by_cases hip : i = p
    · subst hip
      have h := removeKeyLoop_flag key (n + 1) i vk hvk
      simp only [removeKeyLoop, Bool.true_or, if_true] at h
      simp only [removeKeyLoop, hp, Bool.or_true, if_true]
      exact h
    · have h0 : memcmpEq key (vk i) = false := hno i (Nat.le_refl i) (by omega)
      simp only [removeKeyLoop, h0, Bool.or_self, Bool.false_eq_true, if_false]
      have := ih (i + 1) vk hvk (by omega) (by omega)
        (fun x h3 h4 => hno x (by omega) h4) hp
      rw [this]
      have e : i + 1 + n = i + (n + 1) := by omega
      rw [e]

theorem removeKey_absent (s : State) (key : Key) (hs : SlotsWF s)
    (hk : key.length = KEY_LENGTH)
    (hno : ∀ i, i < KEY_MAX_CNT → s.valid_keys i ≠ key) :
    removeKey s key = (false, s) := by
  have h : removeKeyLoop key (SIZEOF_VALID_KEYS / KEY_LENGTH) 0 (false, s.valid_keys)
      = (false, s.valid_keys) := by
    apply removeKeyLoop_none
    intro x _ hx
    have hx2 : x < KEY_MAX_CNT := by simpa using hx
    cases hm : memcmpEq key (s.valid_keys x) with
    | false => rfl
    | true => exact absurd ((memcmpEq_iff key _ hk (hs x)).1 hm).symm (hno x hx2)
  simp only [removeKey, h]
  rfl

theorem removeKey_first (s : State) (key : Key) (p : Nat) (hs : SlotsWF s)
    (hk : key.length = KEY_LENGTH) (hp : p < KEY_MAX_CNT) (hpk : s.valid_keys p = key)
    (hno : ∀ i, i < p → s.valid_keys i ≠ key) :
    removeKey s key = (true, removedAt s p) := by
  have h : removeKeyLoop key (SIZEOF_VALID_KEYS / KEY_LENGTH) 0 (false, s.valid_keys)
      = (true, shiftedSlots s.valid_keys p KEY_MAX_CNT) := by
    have := removeKeyLoop_first key p (SIZEOF_VALID_KEYS / KEY_LENGTH) 0 s.valid_keys hs
      (Nat.zero_le p) (by simpa using hp)
      (fun x _ hx => by
        cases hm : memcmpEq key (s.valid_keys x) with
        | false => rfl
        | true => exact absurd ((memcmpEq_iff key _ hk (hs x)).1 hm).symm (hno x hx))
      ((memcmpEq_iff key _ hk (hs p)).2 hpk.symm)
    simpa using this
  simp only [removeKey, h]
  simp [removedAt, eepromPut, emit]

/-- The first slot equal to `key`, when there is one below `n`. -/
theorem exists_first_slot (vk : Nat → Key) (key : Key) (n : Nat)
    (h : ∃ i, i < n ∧ vk i = key) :
    ∃ p, p < n ∧ vk p = key ∧ ∀ i, i < p → vk i ≠ key := by
  classical
  refine ⟨Nat.find h, (Nat.find_spec h).1, (Nat.find_spec h).2, ?_⟩
  intro i hi hik
  exact Nat.find_min h hi ⟨Nat.lt_trans hi (Nat.find_spec h).1, hik⟩

theorem liveKeys_getElem? (s : State) (j : Nat) :
    (liveKeys s)[j]? = if j < s.key_count then some (s.valid_keys j) else none := by
  simp only [liveKeys, List.getElem?_map]
  by_cases h : j < s.key_count
  · simp [h, List.getElem?_range h]
  · simp [h, List.getElem?_eq_none (show (List.range s.key_count).length ≤ j by simpa using h)]

theorem mem_liveKeys (s : State) (key : Key) :
    key ∈ liveKeys s ↔ ∃ i, i < s.key_count ∧ s.valid_keys i = key := by
  simp [liveKeys]

theorem erase_eq_eraseIdx_first (a : Key) :
    ∀ (l : List Key) (p : Nat), l[p]? = some a → (∀ x, x < p → l[x]? ≠ some a) →
      l.erase a = l.eraseIdx p
  | [], p, h, _ => by simp at h
  | b :: l, 0, h, _ => by
    simp only [List.getElem?_cons_zero, Option.some.injEq] at h
    subst h
    simp
  | b :: l, p + 1, h, hn => by
    have hb : ¬ (b == a) = true := by
      have := hn 0 (Nat.succ_pos p)
      simpa using this
    rw [List.erase_cons_tail hb, List.eraseIdx_cons_succ]
    congr 1
    apply erase_eq_eraseIdx_first a l p
    · simpa using h
    · intro x hx
      have := hn (x + 1) (by omega)
      simpa using this

theorem removedAt_key_count (s : State) (p : Nat) (h1 : 0 < s.key_count)
    (hc : s.key_count ≤ KEY_MAX_CNT) : (removedAt s p).key_count + 1 = s.key_count := by
  have hc2 : s.key_count ≤ 10 := hc
  simp only [removedAt]
  omega

theorem liveKeys_removedAt (s : State) (p : Nat) (hp : p < s.key_count)
    (hc : s.key_count ≤ KEY_MAX_CNT) :
    liveKeys (removedAt s p) = (liveKeys s).eraseIdx p := by
  have hc2 : s.key_count ≤ 10 := hc
  have hk := removedAt_key_count s p (by omega) hc
  apply List.ext_getElem?
  intro j
  rw [liveKeys_getElem?, List.getElem?_eraseIdx, liveKeys_getElem?, liveKeys_getElem?]
  by_cases hj : j < (removedAt s p).key_count
  · have hj1 : j < s.key_count := by omega
    have hj2 : j + 1 < s.key_count := by omega
    have hj3 : j ≠ s.key_count := by omega
    have hv : (removedAt s p).valid_keys j = shiftedSlots s.valid_keys p KEY_MAX_CNT j := by
      simp [removedAt, Function.update_noteq hj3]
    rw [if_pos hj, if_pos hj1, if_pos hj2, hv]
    by_cases hjp : j < p
    · have : ¬ (p ≤ j ∧ j < KEY_MAX_CNT) := by omega
      simp [shiftedSlots, hjp, this]
    · have : p ≤ j ∧ j < KEY_MAX_CNT := ⟨by omega, by show j < 10; omega⟩
      simp [shiftedSlots, hjp, this]
  · have hj2 : ¬ j + 1 < s.key_count := by omega
    have hjp : ¬ j < p := by omega
    rw [if_neg hj, if_neg hjp, if_neg hj2]

/-! ## C2: `removeKey` of a registered key -/

/-- C2: when `key_count <= 10`, the live entries are pairwise distinct and
`key` is one of them, `removeKey(key)` returns true, `key_count` drops by
exactly 1 and the new live entries are the old ones with `key` deleted, in
the same order (so `key` is no longer live); `key_count = 10` included. -/
theorem c2_removeKey_present (s : State) (key : Key) (hs : SlotsWF s)
    (hk : key.length = KEY_LENGTH) (hc : s.key_count ≤ KEY_MAX_CNT)
    (hd : (liveKeys s).Nodup) (hm : key ∈ liveKeys s) :
    (removeKey s key).1 = true ∧
    (removeKey s key).2.key_count + 1 = s.key_count ∧
    liveKeys (removeKey s key).2 = (liveKeys s).erase key ∧
    key ∉ liveKeys (removeKey s key).2 := by
  obtain ⟨p, hp, hpk, hno⟩ :=
    exists_first_slot s.valid_keys key s.key_count ((mem_liveKeys s key).1 hm)
  have hr := removeKey_first s key p hs hk (Nat.lt_of_lt_of_le hp hc) hpk hno
  have he : (liveKeys s).erase key = (liveKeys s).eraseIdx p := by
    apply erase_eq_eraseIdx_first
    · rw [liveKeys_getElem?, if_pos hp, hpk]
    · intro x hx
      rw [liveKeys_getElem?, if_pos (Nat.lt_trans hx hp)]
      intro h
      exact hno x hx (Option.some.inj h)
  have hl : liveKeys (removeKey s key).2 = (liveKeys s).erase key := by
    rw [hr, he]
    exact liveKeys_removedAt s p hp hc
  refine ⟨by rw [hr], ?_, hl, ?_⟩
  · rw [hr]
    exact removedAt_key_count s p (by omega) hc
  · rw [hl]
    exact hd.not_mem_erase

/-- C2 at the registry holding `keyA`, `keyB`, `keyC`, removing `keyB`. -/
theorem c2_removeKey_present_witness :
    SlotsWF stateABC ∧ keyB.length = KEY_LENGTH ∧ stateABC.key_count ≤ KEY_MAX_CNT ∧
    (liveKeys stateABC).Nodup ∧ keyB ∈ liveKeys stateABC ∧
    (removeKey stateABC keyB).1 = true ∧
    (removeKey stateABC keyB).2.key_count + 1 = stateABC.key_count ∧
    liveKeys (removeKey stateABC keyB).2 = (liveKeys stateABC).erase keyB ∧
    keyB ∉ liveKeys (removeKey stateABC keyB).2 :=
  ⟨slotsWF_stateABC, by decide, by decide, by decide, by decide,
    c2_removeKey_present stateABC keyB slotsWF_stateABC (by decide) (by decide)
      (by decide) (by decide)⟩

/-- Removing `keyB` from the registry `keyA, keyB, keyC` leaves `keyA, keyC`. -/
theorem removeKey_stateABC_live :
    liveKeys (removeKey stateABC keyB).2 = [keyA, keyC] := by
  decide

/-- With ten live entries the removal still leaves the nine others. -/
theorem removeKey_full_live :
    liveKeys (removeKey { zeroState with key_count := 10, valid_keys := fun i => [1, i, 0, 0, 0, 0, 0, 0] }
      [1, 3, 0, 0, 0, 0, 0, 0]).2
      = [0, 1, 2, 4, 5, 6, 7, 8, 9].map (fun i => [1, i, 0, 0, 0, 0, 0, 0]) := by
  decide

/-! ## C3: `addKey` -/

theorem addKey_of_valid (s : State) (key : Key) (h : keyIsValid s key = true) :
    addKey s key = (false, s) := by
  simp [addKey, h]

theorem addKey_of_full (s : State) (key : Key) (h : s.key_count = KEY_MAX_CNT) :
    addKey s key = (false, s) := by
  simp [addKey, h]

theorem addKey_fresh (s : State) (key : Key) (hv : keyIsValid s key = false)
    (hc : s.key_count ≠ KEY_MAX_CNT) :
    addKey s key = (true,
      { s with
        key_count := (s.key_count + 1) % 256
        valid_keys := Function.update s.valid_keys s.key_count (copyKey key)
        eeprom := eepromStore (eepromStore s.eeprom KEY_S_ADDR
            (arrayBytes (Function.update s.valid_keys s.key_count (copyKey key))))
          KEY_CNT_ADDR [(s.key_count + 1) % 256]
        trace := s.trace ++ [Event.eepromWrite KEY_S_ADDR
            (arrayBytes (Function.update s.valid_keys s.key_count (copyKey key))),
          Event.eepromWrite KEY_CNT_ADDR [(s.key_count + 1) % 256]] }) := by
  simp [addKey, hv, hc, eepromPut, emit]

/-- C3: when `key` equals a live entry or the registry is full
(`key_count = 10`), `addKey(key)` returns false and the whole state - the
slots, `key_count`, the EEPROM and the log of writes - is what it was. -/
theorem c3_addKey_rejects (s : State) (key : Key) (hs : SlotsWF s)
    (hk : key.length = KEY_LENGTH) (hc : s.key_count ≤ KEY_MAX_CNT)
    (h : key ∈ liveKeys s ∨ s.key_count = KEY_MAX_CNT) :
    addKey s key = (false, s) := by
  rcases h with h | h
  · obtain ⟨i, hi, hik⟩ := (mem_liveKeys s key).1 h
    exact addKey_of_valid s key
      ((keyIsValid_iff s key hs hk).2 ⟨i, Nat.lt_of_lt_of_le hi hc, hik⟩)
  · exact addKey_of_full s key h

/-- C3 at the registry `keyA, keyB, keyC`: adding `keyB` again is refused. -/
theorem c3_addKey_rejects_witness :
    SlotsWF stateABC ∧ keyB.length = KEY_LENGTH ∧ stateABC.key_count ≤ KEY_MAX_CNT ∧
    (keyB ∈ liveKeys stateABC ∨ stateABC.key_count = KEY_MAX_CNT) ∧
    addKey stateABC keyB = (false, stateABC) :=
  ⟨slotsWF_stateABC, by decide, by decide, Or.inl (by decide),
    c3_addKey_rejects stateABC keyB slotsWF_stateABC (by decide) (by decide)
      (Or.inl (by decide))⟩

theorem addKey_fresh_spec (s : State) (key : Key) (hk : key.length = KEY_LENGTH)
    (hc : s.key_count < KEY_MAX_CNT) (hv : keyIsValid s key = false) :
    (addKey s key).1 = true ∧
    (addKey s key).2.valid_keys = Function.update s.valid_keys s.key_count key ∧
    (addKey s key).2.key_count = s.key_count + 1 ∧
    liveKeys (addKey s key).2 = liveKeys s ++ [key] := by
  have hc2 : s.key_count < 10 := hc
  have hr := addKey_fresh s key hv (by omega)
  have hkc : (s.key_count + 1) % 256 = s.key_count + 1 := by omega
  rw [hr, copyKey_eq key hk, hkc]
  refine ⟨rfl, rfl, rfl, ?_⟩
  simp only [liveKeys, List.range_succ, List.map_append, List.map_cons, List.map_nil,
    Function.update_same]
  congr 1
  apply List.map_congr_left
  intro i hi
  have : i ≠ s.key_count := Nat.ne_of_lt (List.mem_range.1 hi)
  simp [Function.update_noteq this]

theorem keyIsValid_false_of_no_slot (s : State) (key : Key) (hs : SlotsWF s)
    (hk : key.length = KEY_LENGTH)
    (hno : ∀ i, i < KEY_MAX_CNT → s.valid_keys i ≠ key) : keyIsValid s key = false := by
  cases h : keyIsValid s key with
  | false => rfl
  | true =>
    obtain ⟨i, hi, hik⟩ := (keyIsValid_iff s key hs hk).1 h
    exact absurd hik (hno i hi)

/-- When `key_count < 10` and `key` equals none of the ten slots of the array
(live or not), `addKey(key)` returns true, stores the 8 bytes of
`key` in slot `key_count`, leaves every other slot as it was and increments
`key_count` by exactly 1, so the live sequence is the old one with `key`
appended. -/
theorem addKey_appends (s : State) (key : Key) (hs : SlotsWF s)
    (hk : key.length = KEY_LENGTH) (hc : s.key_count < KEY_MAX_CNT)
    (hno : ∀ i, i < KEY_MAX_CNT → s.valid_keys i ≠ key) :
    (addKey s key).1 = true ∧
    (addKey s key).2.valid_keys s.key_count = key ∧
    (∀ i, i ≠ s.key_count → (addKey s key).2.valid_keys i = s.valid_keys i) ∧
    (addKey s key).2.key_count = s.key_count + 1 ∧
    liveKeys (addKey s key).2 = liveKeys s ++ [key] := by
  obtain ⟨h1, h2, h3, h4⟩ :=
    addKey_fresh_spec s key hk hc (keyIsValid_false_of_no_slot s key hs hk hno)
  refine ⟨h1, by rw [h2]; simp, fun i hi => by rw [h2]; simp [Function.update_noteq hi],
    h3, h4⟩

/-- Adding `keyC` at the registry `keyA, keyB`. -/
theorem addKey_appends_sample :
    SlotsWF stateAB ∧ keyC.length = KEY_LENGTH ∧ stateAB.key_count < KEY_MAX_CNT ∧
    (∀ i, i < KEY_MAX_CNT → stateAB.valid_keys i ≠ keyC) ∧
    (addKey stateAB keyC).1 = true ∧
    (addKey stateAB keyC).2.valid_keys stateAB.key_count = keyC ∧
    (∀ i, i ≠ stateAB.key_count → (addKey stateAB keyC).2.valid_keys i = stateAB.valid_keys i) ∧
    (addKey stateAB keyC).2.key_count = stateAB.key_count + 1 ∧
    liveKeys (addKey stateAB keyC).2 = liveKeys stateAB ++ [keyC] :=
  have hno : ∀ i, i < KEY_MAX_CNT → stateAB.valid_keys i ≠ keyC := fun i _ => by
    show (if i = 0 then keyA else if i = 1 then keyB else zeroKey) ≠ keyC
    split_ifs <;> decide
  ⟨slotsWF_stateAB, by decide, by decide, hno,
    addKey_appends stateAB keyC slotsWF_stateAB (by decide) (by decide) hno⟩

/-! ## Frame lemmas: which fields each operation touches -/

theorem modeBeep_eq (n : Nat) :
    ∀ s : State, modeBeep s n = { s with trace := s.trace ++ beepEvents n } := by
  induction n with
  | zero => intro s; simp [modeBeep, beepEvents]
  | succ n ih =>
    intro s
    rw [modeBeep, ih]
    simp [beepOnce, emit, beepEvents]

theorem wipeEEPROM_eq (s : State) :
    wipeEEPROM s = { s with
      eeprom := eepromStore (eepromStore s.eeprom KEY_CNT_ADDR [0]) KEY_S_ADDR
        (List.replicate SIZEOF_VALID_KEYS 0)
      trace := s.trace ++ [Event.eepromWrite KEY_CNT_ADDR [0],
        Event.eepromWrite KEY_S_ADDR (List.replicate SIZEOF_VALID_KEYS 0)] } := by
  simp [wipeEEPROM, eepromPut, emit]

theorem wiped_count (e : Nat → Nat) :
    eepromStore (eepromStore e KEY_CNT_ADDR [0]) KEY_S_ADDR
      (List.replicate SIZEOF_VALID_KEYS 0) KEY_CNT_ADDR = 0 := by
  simp [eepromStore]

theorem wiped_keys (e : Nat → Nat) (a : Nat) (ha : a < SIZEOF_VALID_KEYS) :
    eepromStore (eepromStore e KEY_CNT_ADDR [0]) KEY_S_ADDR
      (List.replicate SIZEOF_VALID_KEYS 0) a = 0 := by
  simp [eepromStore, ha, List.getElem?_replicate]

theorem readJumpers_eeprom (s : State) (jp1 jp2 probe : Bool) :
    (readJumpers s jp1 jp2 probe).eeprom = s.eeprom := by
  simp only [readJumpers, pinMode, digitalRead, digitalWrite, emit]
  split <;> rfl

theorem readJumpers_mode (s : State) (jp1 jp2 probe : Bool) (h0 : s.mode = 0) :
    (readJumpers s jp1 jp2 probe).mode =
      if jp1 && jp2 then (if probe then 0 else 4) else notLevel jp1 + notLevel jp2 * 2 := by
  cases jp1 <;> cases jp2 <;> cases probe <;>
    simp [readJumpers, pinMode, digitalRead, digitalWrite, emit, notLevel, h0]

theorem loadKeys_mode (s : State) : (loadKeys s).mode = s.mode := by
  simp only [loadKeys, eepromGetKeys, wipeEEPROM_eq]
  split <;> split <;> rfl

theorem initPins_eq (s : State) :
    initPins s = { s with
      pins := Function.update (Function.update (Function.update
        (Function.update s.pins 2 true) 3 true) 4 true) 5 true
      trace := s.trace ++ relayInitEvents ++
        [Event.pinMode LOCK_STATUS_PIN PinMode.INPUT_PULLUP] } := by
  simp [initPins, pinMode, digitalWrite, emit, relayInitEvents]

theorem startupBeep_eq (s : State) :
    startupBeep s = { s with
      trace := s.trace ++ [Event.pinMode WAKEUP_PIN PinMode.INPUT_PULLUP,
        Event.enablePCINT WAKEUP_PIN, Event.tone BUZZER_PIN 500, Event.delay 50,
        Event.noTone BUZZER_PIN] ++ beepEvents s.mode } := by
  simp [startupBeep, modeBeep_eq, pinMode, emit]

theorem setup_mode (s : State) (jp1 jp2 probe : Bool) (h0 : s.mode = 0) :
    (setup s jp1 jp2 probe).mode =
      if jp1 && jp2 then (if probe then 0 else 4) else notLevel jp1 + notLevel jp2 * 2 := by
  have h1 : (initPins s).mode = 0 := by rw [initPins_eq]; exact h0
  rw [setup, startupBeep_eq]
  show (loadKeys _).mode = _
  rw [loadKeys_mode]
  exact readJumpers_mode _ jp1 jp2 probe h1

/-! ## C7: mode resolution -/

/-- C7: with `A` = JP1 asserted (read LOW), `B` = JP2 asserted and `P` = JP2
asserted at the probe, `setup` started with `mode = 0` resolves the mode
0 for (A=0,B=0,P=0), 1 for (A=1,B=0), 2 for (A=0,B=1), 3 for (A=1,B=1) and
4 for (A=0,B=0,P=1); the probe matters only when neither jumper is asserted,
and the mode is at most 4. -/
theorem c7_mode_resolution (s : State) (h0 : s.mode = 0) :
    (setup s true true true).mode = MODE_NORMAL ∧
    (∀ P : Bool, (setup s false true (!P)).mode = MODE_ADD) ∧
    (∀ P : Bool, (setup s true false (!P)).mode = MODE_REMOVE) ∧
    (∀ P : Bool, (setup s false false (!P)).mode = MODE_UNUSED) ∧
    (setup s true true false).mode = MODE_WIPE ∧
    (∀ A B P : Bool, (A || B) = true →
      (setup s (!A) (!B) (!P)).mode = (setup s (!A) (!B) P).mode) ∧
    (∀ A B P : Bool, (setup s (!A) (!B) (!P)).mode ≤ 4) := by
  have h : ∀ a b p, (setup s a b p).mode =
      if a && b then (if p then 0 else 4) else notLevel a + notLevel b * 2 := by
    intro a b p
    exact setup_mode s a b p h0
  refine ⟨by rw [h]; rfl, fun P => by rw [h]; rfl, fun P => by rw [h]; rfl,
    fun P => by rw [h]; rfl, by rw [h]; rfl, ?_, ?_⟩
  · intro A B P hab
    rw [h, h]
    cases A <;> cases B <;> simp_all
  · intro A B P
    rw [h]
    cases A <;> cases B <;> cases P <;> decide

/-- C7 from the all-zero start state. -/
theorem c7_mode_resolution_witness :
    zeroState.mode = 0 ∧
    (setup zeroState true true true).mode = MODE_NORMAL ∧
    (∀ P : Bool, (setup zeroState false true (!P)).mode = MODE_ADD) ∧
    (∀ P : Bool, (setup zeroState true false (!P)).mode = MODE_REMOVE) ∧
    (∀ P : Bool, (setup zeroState false false (!P)).mode = MODE_UNUSED) ∧
    (setup zeroState true true false).mode = MODE_WIPE ∧
    (∀ A B P : Bool, (A || B) = true →
      (setup zeroState (!A) (!B) (!P)).mode = (setup zeroState (!A) (!B) P).mode) ∧
    (∀ A B P : Bool, (setup zeroState (!A) (!B) (!P)).mode ≤ 4) :=
  ⟨rfl, c7_mode_resolution zeroState rfl⟩

/-! ## C9: boot with a count byte out of range -/

theorem eepromGetKeys_wiped (s : State) (h : ∀ a, a < SIZEOF_VALID_KEYS → s.eeprom a = 0)
    (i : Nat) (hi : i < KEY_MAX_CNT) : (eepromGetKeys s).valid_keys i = zeroKey := by
  simp only [eepromGetKeys, if_pos hi, zeroKey]
  apply List.ext_getElem (by simp)
  intro j h1 _
  have hj : j < 8 := by simpa using h1
  have hi2 : i < 10 := hi
  simp only [List.getElem_map, List.getElem_range, List.getElem_replicate]
  exact h _ (by show 0 + i * 8 + j < 10 * 8; omega)

theorem loadKeys_corrupt (s : State) (h : s.eeprom KEY_CNT_ADDR > KEY_MAX_CNT) :
    (loadKeys s).key_count = 0 ∧ (loadKeys s).eeprom KEY_CNT_ADDR = 0 ∧
    (∀ a, a < SIZEOF_VALID_KEYS → (loadKeys s).eeprom a = 0) ∧
    (∀ i, i < KEY_MAX_CNT → (loadKeys s).valid_keys i = zeroKey) := by
  by_cases hm : s.mode = MODE_WIPE
  · have e : loadKeys s = eepromGetKeys { wipeEEPROM s with key_count := 0 } := by
      simp [loadKeys, hm, wipeEEPROM_eq, wiped_count]
    rw [e]
    refine ⟨rfl, ?_, ?_, ?_⟩
    · simp [eepromGetKeys, wipeEEPROM_eq, wiped_count]
    · intro a ha
      simp [eepromGetKeys, wipeEEPROM_eq, wiped_keys _ a ha]
    · intro i hi
      apply eepromGetKeys_wiped _ _ i hi
      intro a ha
      simp [wipeEEPROM_eq, wiped_keys _ a ha]
  · have e : loadKeys s = eepromGetKeys (wipeEEPROM { s with key_count := 0 }) := by
      simp [loadKeys, hm, h]
    rw [e]
    refine ⟨rfl, ?_, ?_, ?_⟩
    · simp [eepromGetKeys, wipeEEPROM_eq, wiped_count]
    · intro a ha
      simp [eepromGetKeys, wipeEEPROM_eq, wiped_keys _ a ha]
    · intro i hi
      apply eepromGetKeys_wiped _ _ i hi
      intro a ha
      simp [wipeEEPROM_eq, wiped_keys _ a ha]

/-- C9: when the persisted count byte is greater than 10, whatever the key
region held and whatever the jumpers say, `setup` returns with
`key_count = 0`, the persisted count byte 0, the 80 persisted key bytes 0 and
every slot of `valid_keys` zero. -/
theorem c9_setup_wipes_corrupt_store (s : State) (jp1 jp2 probe : Bool)
    (h : s.eeprom KEY_CNT_ADDR > KEY_MAX_CNT) :
    (setup s jp1 jp2 probe).key_count = 0 ∧
    (setup s jp1 jp2 probe).eeprom KEY_CNT_ADDR = 0 ∧
    (∀ a, a < SIZEOF_VALID_KEYS → (setup s jp1 jp2 probe).eeprom a = 0) ∧
    (∀ i, i < KEY_MAX_CNT → (setup s jp1 jp2 probe).valid_keys i = zeroKey) := by
  have h1 : (readJumpers (initPins s) jp1 jp2 probe).eeprom KEY_CNT_ADDR > KEY_MAX_CNT := by
    rw [readJumpers_eeprom, initPins_eq]
    exact h
  have h2 := loadKeys_corrupt _ h1
  rw [setup, startupBeep_eq]
  exact h2

/-- C9 with the count byte 200 over an EEPROM full of 0xC8. -/
theorem c9_setup_wipes_corrupt_store_witness :
    ({ zeroState with eeprom := fun _ => 200 } : State).eeprom KEY_CNT_ADDR > KEY_MAX_CNT ∧
    (setup { zeroState with eeprom := fun _ => 200 } true false true).key_count = 0 ∧
    (setup { zeroState with eeprom := fun _ => 200 } true false true).eeprom KEY_CNT_ADDR = 0 ∧
    (∀ a, a < SIZEOF_VALID_KEYS →
      (setup { zeroState with eeprom := fun _ => 200 } true false true).eeprom a = 0) ∧
    (∀ i, i < KEY_MAX_CNT →
      (setup { zeroState with eeprom := fun _ => 200 } true false true).valid_keys i
        = zeroKey) :=
  ⟨by decide, c9_setup_wipes_corrupt_store { zeroState with eeprom := fun _ => 200 }
    true false true (by decide)⟩

/-! ## C10: `lockHandler` with a registered key -/

theorem moveLock_eq (s : State) (pin1 pin2 : Nat) :
    moveLock s pin1 pin2 = { s with
      pins := Function.update (Function.update (Function.update
        (Function.update s.pins pin1 false) pin2 false) pin1 true) pin2 true
      trace := s.trace ++ pulseEvents pin1 pin2 } := by
  simp [moveLock, digitalWrite, emit, pulseEvents]

theorem lockHandler_opened (s : State) (key : Key) (opened2 : Bool)
    (hv : keyIsValid s key = true) :
    lockHandler s key true opened2 = (!opened2, { s with
      pins := Function.update (Function.update (Function.update
        (Function.update s.pins 4 false) 5 false) 4 true) 5 true
      trace := s.trace ++ [Event.digitalRead LOCK_STATUS_PIN true] ++ pulseEvents 4 5 ++
        [Event.digitalRead LOCK_STATUS_PIN opened2] }) := by
  cases opened2 <;>
    simp [lockHandler, hv, CLOSE_LOCK, moveLock_eq, digitalRead, emit]

theorem lockHandler_closed (s : State) (key : Key) (opened2 : Bool)
    (hv : keyIsValid s key = true) :
    lockHandler s key false opened2 = (opened2, { s with
      pins := Function.update (Function.update (Function.update
        (Function.update s.pins 2 false) 3 false) 2 true) 3 true
      trace := s.trace ++ [Event.digitalRead LOCK_STATUS_PIN false] ++ pulseEvents 2 3 ++
        [Event.digitalRead LOCK_STATUS_PIN opened2] }) := by
  cases opened2 <;>
    simp [lockHandler, hv, OPEN_LOCK, moveLock_eq, digitalRead, emit]

theorem foldl_emit {α : Type} (f : α → Event) (l : List α) :
    ∀ s : State, l.foldl (fun st i => emit st (f i)) s
      = { s with trace := s.trace ++ l.map f } := by
  induction l with
  | nil => intro s; simp
  | cons a l ih => intro s; rw [List.foldl_cons, ih]; simp [emit]

theorem readKey_eq (s : State) (key_buf : Key) :
    readKey s key_buf = { s with trace := s.trace ++
      (List.range KEY_LENGTH).map fun i => Event.dsRead (key_buf.getD i 0) } := by
  rw [readKey, foldl_emit]

theorem loop_frameOk (crc8 : List Nat → Nat) (s : State) (inp : LoopInput)
    (hp : inp.present = true) (hf : frameOk crc8 inp.key_buf = true) :
    loop crc8 s inp =
      feedback (dispatch { s with trace := s.trace ++ readerEvents inp } inp).2
        (dispatch { s with trace := s.trace ++ readerEvents inp } inp).1 := by
  simp only [loop, hp, hf, if_true, readKey_eq, emit, readerEvents, List.append_assoc,
    List.singleton_append, List.cons_append, List.nil_append]

theorem loop_rejected (crc8 : List Nat → Nat) (s : State) (inp : LoopInput)
    (h : ¬ (inp.present = true ∧ frameOk crc8 inp.key_buf = true)) :
    loop crc8 s inp = { s with trace := s.trace ++
      if inp.present then readerEvents inp
      else [Event.powerDown, Event.delay 50, Event.dsReset inp.present] } := by
  by_cases hp : inp.present = true
  · have hf : frameOk crc8 inp.key_buf = false := by
      cases hq : frameOk crc8 inp.key_buf with
      | false => rfl
      | true => exact absurd ⟨hp, hq⟩ h
    simp [loop, hp, hf, readKey_eq, emit, readerEvents]
  · simp [loop, hp, emit]

theorem feedback_eq (s : State) (res : Bool) :
    feedback s res = { s with trace := s.trace ++ beepEvents s.mode ++ resultEvents res } := by
  simp [feedback, modeBeep_eq, emit, resultEvents]

/-- C10: for a key that `keyIsValid` accepts, `lockHandler` reads the sensor,
and if it reads Opened pulses the close pair (pins 4, 5) once, touches no
pin of the open pair and returns true exactly when the sensor re-read is
Closed; if it reads Closed it pulses the open pair (pins 2, 3) once, touches
no pin of the close pair and returns true exactly when the re-read is
Opened.  In Normal mode a frame with such a key, the sensor Closed and then
Opened, ends with the 2000 Hz tone. -/
theorem c10_lockHandler_registered (s : State) (key : Key)
    (hv : keyIsValid s key = true) (opened2 : Bool) :
    ((lockHandler s key true opened2).1 = !opened2 ∧
      (lockHandler s key true opened2).2.trace = s.trace ++
        [Event.digitalRead LOCK_STATUS_PIN true] ++
        pulseEvents (RELAY_PINS.getD 2 0) (RELAY_PINS.getD 3 0) ++
        [Event.digitalRead LOCK_STATUS_PIN opened2]) ∧
    ((lockHandler s key false opened2).1 = opened2 ∧
      (lockHandler s key false opened2).2.trace = s.trace ++
        [Event.digitalRead LOCK_STATUS_PIN false] ++
        pulseEvents (RELAY_PINS.getD 0 0) (RELAY_PINS.getD 1 0) ++
        [Event.digitalRead LOCK_STATUS_PIN opened2]) ∧
    (∀ (crc8 : List Nat → Nat) (inp : LoopInput), s.mode = MODE_NORMAL →
      inp.present = true → frameOk crc8 inp.key_buf = true → inp.key_buf = key →
      inp.opened1 = false → inp.opened2 = true →
      (loop crc8 s inp).trace = s.trace ++ readerEvents inp ++
        [Event.digitalRead LOCK_STATUS_PIN false] ++
        pulseEvents (RELAY_PINS.getD 0 0) (RELAY_PINS.getD 1 0) ++
        [Event.digitalRead LOCK_STATUS_PIN true] ++
        [Event.tone BUZZER_PIN HIGH_TONE, Event.delay READER_DELAY,
          Event.noTone BUZZER_PIN]) := by
  refine ⟨?_, ?_, ?_⟩
  · rw [lockHandler_opened s key opened2 hv]
    exact ⟨rfl, rfl⟩
  · rw [lockHandler_closed s key opened2 hv]
    exact ⟨rfl, rfl⟩
  · intro crc8 inp hm hp hf hk h1 h2
    have hv2 : keyIsValid { s with trace := s.trace ++ readerEvents inp } key = true := hv
    rw [loop_frameOk crc8 s inp hp hf]
    have hd : dispatch { s with trace := s.trace ++ readerEvents inp } inp
        = lockHandler { s with trace := s.trace ++ readerEvents inp } key false true := by
      simp [dispatch, hm, hk, h1, h2]
    rw [hd, lockHandler_closed _ key true hv2, feedback_eq]
    simp [hm, beepEvents, resultEvents]

/-- The frame carrying `keyB`, with the sensor Closed before and Opened after. -/
theorem c10_lockHandler_registered_witness :
    keyIsValid stateABC keyB = true ∧
    (lockHandler stateABC keyB false true).1 = true ∧
    (lockHandler stateABC keyB true true).1 = false :=
  have h := c10_lockHandler_registered stateABC keyB (by decide) true
  ⟨by decide, h.2.1.1, h.1.1⟩

/-! ## C8: the frame check of `loop` -/

theorem validFrame_iff (crc8 : List Nat → Nat) (inp : LoopInput) :
    ValidFrame crc8 inp ↔ (inp.present = true ∧ frameOk crc8 inp.key_buf = true) := by
  simp [ValidFrame, frameOk]

theorem addKey_trace (s : State) (key : Key) :
    ∃ es, (addKey s key).2.trace = s.trace ++ es := by
  unfold addKey
  split
  · exact ⟨[], by simp⟩
  · split
    · exact ⟨[], by simp⟩
    · exact ⟨_, by simp only [eepromPut, emit, List.append_assoc]; rfl⟩

theorem removeKey_trace (s : State) (key : Key) :
    ∃ es, (removeKey s key).2.trace = s.trace ++ es := by
  unfold removeKey
  simp only
  split
  · exact ⟨_, by simp only [eepromPut, emit, List.append_assoc]; rfl⟩
  · exact ⟨[], by simp⟩

theorem lockHandler_trace (s : State) (key : Key) (o1 o2 : Bool) :
    ∃ es, (lockHandler s key o1 o2).2.trace = s.trace ++ es := by
  cases hv : keyIsValid s key with
  | false => exact ⟨[], by simp [lockHandler, hv]⟩
  | true =>
    cases o1 with
    | true => rw [lockHandler_opened s key o2 hv]; exact ⟨_, by simp only [List.append_assoc]; rfl⟩
    | false => rw [lockHandler_closed s key o2 hv]; exact ⟨_, by simp only [List.append_assoc]; rfl⟩

theorem dispatch_trace (s : State) (inp : LoopInput) :
    ∃ es, (dispatch s inp).2.trace = s.trace ++ es := by
  unfold dispatch
  split
  · exact lockHandler_trace _ _ _ _
  · split
    · exact addKey_trace _ _
    · split
      · exact removeKey_trace _ _
      · exact ⟨[], by simp⟩

theorem loop_valid_tone (crc8 : List Nat → Nat) (s : State) (inp : LoopInput)
    (h : ValidFrame crc8 inp) :
    ∃ e, e ∈ newEvents s (loop crc8 s inp) ∧ e.isTone = true := by
  obtain ⟨hp, hf⟩ := (validFrame_iff crc8 inp).1 h
  obtain ⟨es, hes⟩ := dispatch_trace { s with trace := s.trace ++ readerEvents inp } inp
  refine ⟨Event.tone BUZZER_PIN (if (dispatch { s with trace := s.trace ++ readerEvents inp }
    inp).1 then HIGH_TONE else LOW_TONE), ?_, rfl⟩
  rw [newEvents, loop_frameOk crc8 s inp hp hf, feedback_eq, hes]
  simp only [List.append_assoc, List.drop_left]
  simp [resultEvents]

theorem loop_invalid_quiet (crc8 : List Nat → Nat) (s : State) (inp : LoopInput)
    (h : ¬ ValidFrame crc8 inp) :
    ∀ e, e ∈ newEvents s (loop crc8 s inp) → e.isTone = false := by
  rw [validFrame_iff] at h
  rw [newEvents, loop_rejected crc8 s inp h]
  simp only [List.drop_left]
  intro e he
  split at he
  · simp only [readerEvents, List.mem_append, List.mem_cons, List.mem_map] at he
    rcases he with (he | he | he | he | he) | ⟨i, _, he⟩ <;> first | (subst he; rfl) | simp at he
  · simp only [List.mem_cons] at he
    rcases he with he | he | he | he <;> first | (subst he; rfl) | simp at he

/-- C8: one iteration of `loop` emits a tone if and only if the reader
reported a device, byte 0 is 0x01 and byte 7 is `crc8` of bytes 0..6.  In
that case the iteration is the dispatch on the mode followed by the
feedback; otherwise `mode`, `valid_keys`, `key_count`, the EEPROM and every
output pin are what they were, and the only hardware calls made are the
sleep, the settle delay and the reader traffic. -/
theorem c8_loop_frame_gate (crc8 : List Nat → Nat) (s : State) (inp : LoopInput) :
    ((∃ e, e ∈ newEvents s (loop crc8 s inp) ∧ e.isTone = true) ↔ ValidFrame crc8 inp) ∧
    (ValidFrame crc8 inp →
      loop crc8 s inp =
        feedback (dispatch { s with trace := s.trace ++ readerEvents inp } inp).2
          (dispatch { s with trace := s.trace ++ readerEvents inp } inp).1) ∧
    (¬ ValidFrame crc8 inp →
      (loop crc8 s inp).mode = s.mode ∧
      (loop crc8 s inp).valid_keys = s.valid_keys ∧
      (loop crc8 s inp).key_count = s.key_count ∧
      (loop crc8 s inp).eeprom = s.eeprom ∧
      (loop crc8 s inp).pins = s.pins ∧
      newEvents s (loop crc8 s inp) =
        if inp.present then readerEvents inp
        else [Event.powerDown, Event.delay 50, Event.dsReset inp.present]) := by
  refine ⟨⟨?_, loop_valid_tone crc8 s inp⟩, ?_, ?_⟩
  · rintro ⟨e, he, ht⟩
    by_contra hn
    have := loop_invalid_quiet crc8 s inp hn e he
    rw [this] at ht
    exact Bool.false_ne_true ht
  · intro h
    obtain ⟨hp, hf⟩ := (validFrame_iff crc8 inp).1 h
    exact loop_frameOk crc8 s inp hp hf
  · intro h
    rw [validFrame_iff] at h
    rw [loop_rejected crc8 s inp h]
    refine ⟨rfl, rfl, rfl, rfl, rfl, ?_⟩
    simp only [newEvents, List.drop_left]

/-- C8 in Add mode with a frame whose checksum byte is wrong: nothing is stored. -/
theorem c8_loop_frame_gate_witness :
    ¬ ValidFrame (fun _ => 0) ⟨true, keyA, false, false, false⟩ ∧
    (loop (fun _ => 0) { stateAB with mode := MODE_ADD } ⟨true, keyA, false, false, false⟩).key_count
      = 2 ∧
    (loop (fun _ => 0) { stateAB with mode := MODE_ADD } ⟨true, keyA, false, false, false⟩).eeprom
      = stateAB.eeprom :=
  have hn : ¬ ValidFrame (fun _ => 0) ⟨true, keyA, false, false, false⟩ := by
    simp [ValidFrame, keyA]
  have h := (c8_loop_frame_gate (fun _ => 0) { stateAB with mode := MODE_ADD }
    ⟨true, keyA, false, false, false⟩).2.2 hn
  ⟨hn, h.2.2.1, h.2.2.2.1⟩

/-! ## The registry invariant and the history of calls -/

theorem regInv_keyIsValid (s : State) (t : Key) (h : RegInv s) (ht : IsToken t) :
    keyIsValid s t = true ↔ t ∈ liveKeys s := by
  obtain ⟨hs, hc, _, _, hst⟩ := h
  rw [keyIsValid_iff s t hs ht.1, mem_liveKeys]
  constructor
  · rintro ⟨i, hi, hit⟩
    by_cases hic : i < s.key_count
    · exact ⟨i, hic, hit⟩
    · exfalso
      apply hst i (by omega) (Nat.le_of_lt hi)
      rw [hit]
      exact ht.2
  · rintro ⟨i, hi, hit⟩
    exact ⟨i, Nat.lt_of_lt_of_le hi hc, hit⟩

theorem regInv_addKey (s : State) (k : Key) (h : RegInv s) (hk : IsToken k) :
    RegInv (addKey s k).2 ∧
    liveKeys (addKey s k).2 =
      (if (addKey s k).1 = true then liveKeys s ++ [k] else liveKeys s) ∧
    ((addKey s k).1 = true → k ∉ liveKeys s) := by
  cases hv : keyIsValid s k with
  | true =>
    rw [addKey_of_valid s k hv]
    exact ⟨h, by simp, by simp⟩
  | false =>
    by_cases hfull : s.key_count = KEY_MAX_CNT
    · rw [addKey_of_full s k hfull]
      exact ⟨h, by simp, by simp⟩
    · have hnot : k ∉ liveKeys s := by
        intro hm
        have := (regInv_keyIsValid s k h hk).2 hm
        rw [hv] at this
        exact Bool.false_ne_true this
      obtain ⟨hs, hc, hd, htok, hst⟩ := h
      have hlt : s.key_count < KEY_MAX_CNT := Nat.lt_of_le_of_ne hc hfull
      obtain ⟨h1, h2, h3, h4⟩ := addKey_fresh_spec s k hk.1 hlt hv
      refine ⟨⟨?_, ?_, ?_, ?_, ?_⟩, by rw [h1, h4]; simp, fun _ => hnot⟩
      · intro i
        rw [h2]
        by_cases hi : i = s.key_count
        · subst hi; simpa using hk.1
        · simpa [Function.update_noteq hi] using hs i
      · rw [h3]; exact hlt
      · rw [h4]
        refine List.Nodup.append hd (List.nodup_singleton k) ?_
        intro a ha hb
        rw [List.mem_singleton] at hb
        exact hnot (hb ▸ ha)
      · intro x hx
        rw [h4, List.mem_append, List.mem_singleton] at hx
        rcases hx with hx | hx
        · exact htok x hx
        · rw [hx]; exact hk.2
      · intro i hi1 hi2
        rw [h3] at hi1
        have hne : i ≠ s.key_count := by omega
        rw [h2, Function.update_noteq hne]
        exact hst i (by omega) hi2

theorem regInv_removeKey (s : State) (k : Key) (h : RegInv s) (hk : IsToken k) :
    RegInv (removeKey s k).2 ∧ liveKeys (removeKey s k).2 = (liveKeys s).erase k := by
  obtain ⟨hs, hc, hd, htok, hst⟩ := h
  by_cases hex : ∃ i, i < KEY_MAX_CNT ∧ s.valid_keys i = k
  · obtain ⟨p, hp, hpk, hno⟩ := exists_first_slot s.valid_keys k KEY_MAX_CNT hex
    have hpc : p < s.key_count := by
      by_contra hn
      apply hst p (by omega) (Nat.le_of_lt hp)
      rw [hpk]
      exact hk.2
    have hc2 : s.key_count ≤ 10 := hc
    have hkc := removedAt_key_count s p (by omega) hc
    have hl : liveKeys (removedAt s p) = (liveKeys s).erase k := by
      rw [liveKeys_removedAt s p hpc hc]
      symm
      apply erase_eq_eraseIdx_first
      · rw [liveKeys_getElem?, if_pos hpc, hpk]
      · intro x hx
        rw [liveKeys_getElem?, if_pos (Nat.lt_trans hx hpc)]
        intro hh
        exact hno x hx (Option.some.inj hh)
    rw [removeKey_first s k p hs hk.1 hp hpk hno]
    refine ⟨⟨?_, ?_, ?_, ?_, ?_⟩, hl⟩
    · intro i
      simp only [removedAt]
      by_cases hi : i = s.key_count
      · subst hi; simp [zeroKey]
      · rw [Function.update_noteq hi]
        simp only [shiftedSlots]
        split
        · exact hs _
        · exact hs _
    · show (removedAt s p).key_count ≤ 10
      omega
    · rw [hl]; exact hd.erase k
    · intro x hx
      rw [hl] at hx
      exact htok x (List.mem_of_mem_erase hx)
    · intro i hi1 hi2
      have hi3 : i ≤ 10 := hi2
      have hi4 : (removedAt s p).key_count ≤ i := hi1
      show ((removedAt s p).valid_keys i).getD 0 0 ≠ 0x01
      simp only [removedAt]
      by_cases hi : i = s.key_count
      · subst hi; simp [zeroKey]
      · rw [Function.update_noteq hi]
        simp only [shiftedSlots]
        split
        · rename_i hlt
          have hlt2 : i < 10 := hlt.2
          exact hst (i + 1) (by omega) (by show i + 1 ≤ 10; omega)
        · rename_i hlt
          have hlt2 : ¬ (p ≤ i ∧ i < 10) := hlt
          exact hst i (by omega) hi2
  · have hno : ∀ i, i < KEY_MAX_CNT → s.valid_keys i ≠ k := fun i hi hik => hex ⟨i, hi, hik⟩
    have hnm : k ∉ liveKeys s := by
      rw [mem_liveKeys]
      rintro ⟨i, hi, hik⟩
      exact hno i (Nat.lt_of_lt_of_le hi hc) hik
    rw [removeKey_absent s k hs hk.1 hno, List.erase_of_not_mem hnm]
    exact ⟨⟨hs, hc, hd, htok, hst⟩, rfl⟩

/-- When no slot from `key_count` on, the 8 bytes after the array included,
carries the family byte, the registry follows its history: after any sequence
of `addKey` and `removeKey` calls on tokens, `keyIsValid(t)` says exactly what
the history says about `t`. -/
theorem regInv_tracks_history (t : Key) (ht : IsToken t) (ops : List Op) :
    ∀ s : State, RegInv s → (∀ op, op ∈ ops → IsToken op.key) →
      keyIsValid (runOps s ops) t = registeredAfter t s (decide (t ∈ liveKeys s)) ops := by
  induction ops with
  | nil =>
    intro s h _
    simp only [runOps, registeredAfter]
    by_cases hm : t ∈ liveKeys s
    · simp [hm, (regInv_keyIsValid s t h ht).2 hm]
    · have : keyIsValid s t = false := by
        cases hv : keyIsValid s t with
        | false => rfl
        | true => exact absurd ((regInv_keyIsValid s t h ht).1 hv) hm
      simp [hm, this]
  | cons op ops ih =>
    intro s h hops
    have hrest : ∀ o, o ∈ ops → IsToken o.key := fun o ho => hops o (List.mem_cons_of_mem _ ho)
    cases op with
    | add k =>
      have hk : IsToken k := hops (Op.add k) (List.mem_cons_self _ _)
      obtain ⟨hinv, hl, hfresh⟩ := regInv_addKey s k h hk
      simp only [runOps, applyOp, registeredAfter]
      rw [ih _ hinv hrest, hl]
      congr 1
      by_cases hr : (addKey s k).1 = true
      · by_cases hkt : k = t
        · subst hkt
          simp [hr]
        · have : t ≠ k := fun e => hkt e.symm
          simp [hr, hkt, this]
      · simp [hr]
    | remove k =>
      have hk : IsToken k := hops (Op.remove k) (List.mem_cons_self _ _)
      obtain ⟨hinv, hl⟩ := regInv_removeKey s k h hk
      simp only [runOps, applyOp, registeredAfter]
      rw [ih _ hinv hrest, hl]
      congr 1
      by_cases hkt : k = t
      · subst hkt
        simp [h.2.2.1.not_mem_erase]
      · have : t ≠ k := fun e => hkt e.symm
        simp [hkt, List.mem_erase_of_ne this]

/-- From the wiped registry, provided the 8 bytes after the array do not
start with 0x01, `keyIsValid(t)` is true exactly when some `addKey(t)`
returned true and no `removeKey(t)` was called after the last one. -/
theorem wiped_tracks_history (s : State) (t : Key) (ops : List Op) (hs : SlotsWF s)
    (hc : s.key_count = 0) (hz : ∀ i, i < KEY_MAX_CNT → s.valid_keys i = zeroKey)
    (hg : (s.valid_keys KEY_MAX_CNT).getD 0 0 ≠ 0x01)
    (ht : IsToken t) (hops : ∀ op, op ∈ ops → IsToken op.key) :
    keyIsValid (runOps s ops) t = registeredAfter t s false ops := by
  have hl : liveKeys s = [] := by simp [liveKeys, hc]
  have hinv : RegInv s := by
    refine ⟨hs, by rw [hc]; exact Nat.zero_le _, by rw [hl]; exact List.nodup_nil,
      by rw [hl]; simp, ?_⟩
    intro i _ hi
    by_cases h10 : i = KEY_MAX_CNT
    · rw [h10]; exact hg
    · rw [hz i (Nat.lt_of_le_of_ne hi h10)]
      simp [zeroKey]
  have := regInv_tracks_history t ht ops s hinv hops
  rw [hl] at this
  simpa using this

/-- The history theorem at the all-zero RAM: `keyA` added, `keyB` added,
`keyA` removed. -/
theorem wiped_tracks_history_sample :
    keyIsValid (runOps zeroState [Op.add keyA, Op.add keyB, Op.remove keyA]) keyB = true ∧
    keyIsValid (runOps zeroState [Op.add keyA, Op.add keyB, Op.remove keyA]) keyA = false := by
  decide

/-! ## C6: the registry against its history -/

/-- C6 fails on the code: start from the wiped registry (`key_count = 0`, the
ten slots zero) with the bytes of `keyB` in the RAM after the array, call
`addKey(keyA)` and `removeKey(keyA)`.  The shift of `removeKey` copies
`valid_keys[10]` into slot 9, and `keyIsValid(keyB)` is then true although
`addKey(keyB)` was never called. -/
theorem c6_stray_key_accepted :
    strayState.key_count = 0 ∧
    (∀ i, i < KEY_MAX_CNT → strayState.valid_keys i = zeroKey) ∧
    (addKey strayState keyA).1 = true ∧
    (removeKey (addKey strayState keyA).2 keyA).1 = true ∧
    (runOps strayState [Op.add keyA, Op.remove keyA]).valid_keys 9 = keyB ∧
    keyIsValid (runOps strayState [Op.add keyA, Op.remove keyA]) keyB = true ∧
    registeredAfter keyB strayState false [Op.add keyA, Op.remove keyA] = false := by
  refine ⟨rfl, ?_, by decide, by decide, by decide, by decide, by decide⟩
  intro i hi
  have : i ≠ KEY_MAX_CNT := Nat.ne_of_lt hi
  simp [strayState, this]

/-! ## Normal mode, a token that `keyIsValid` refuses -/

theorem lockHandler_unknown (s : State) (key : Key) (o1 o2 : Bool)
    (hn : keyIsValid s key = false) : lockHandler s key o1 o2 = (false, s) := by
  simp [lockHandler, hn]

theorem loop_normal_unknown (crc8 : List Nat → Nat) (s : State) (inp : LoopInput)
    (hm : s.mode = MODE_NORMAL) (hv : ValidFrame crc8 inp)
    (hn : keyIsValid s inp.key_buf = false) :
    loop crc8 s inp =
      { s with trace := s.trace ++ readerEvents inp ++ resultEvents false } := by
  obtain ⟨hp, hf⟩ := (validFrame_iff crc8 inp).1 hv
  have hn2 : keyIsValid { s with trace := s.trace ++ readerEvents inp } inp.key_buf = false := hn
  have hd : dispatch { s with trace := s.trace ++ readerEvents inp } inp
      = (false, { s with trace := s.trace ++ readerEvents inp }) := by
    simp only [dispatch, hm, if_true]
    exact lockHandler_unknown _ _ _ _ hn2
  rw [loop_frameOk crc8 s inp hp hf, hd, feedback_eq]
  simp [hm, beepEvents]

/-- In a registry satisfying `RegInv`, a valid 8-byte frame that is not a live
entry is refused by `keyIsValid`. -/
theorem regInv_not_live_refused (crc8 : List Nat → Nat) (s : State) (inp : LoopInput)
    (h : RegInv s) (hv : ValidFrame crc8 inp) (hl : inp.key_buf.length = KEY_LENGTH)
    (hn : inp.key_buf ∉ liveKeys s) : keyIsValid s inp.key_buf = false := by
  cases hk : keyIsValid s inp.key_buf with
  | false => rfl
  | true => exact absurd ((regInv_keyIsValid s inp.key_buf h ⟨hl, hv.2.1⟩).1 hk) hn

/-- In Normal mode, for a valid frame whose token `keyIsValid` does not
accept, the handler returns false, the iteration makes no `digitalWrite` (its
hardware calls are the reader traffic followed by the 200 Hz tone held for
1000 ms), and the output pins, `valid_keys`, `key_count` and the EEPROM are
what they were. -/
theorem loop_normal_refused (crc8 : List Nat → Nat) (s : State) (inp : LoopInput)
    (hm : s.mode = MODE_NORMAL) (hv : ValidFrame crc8 inp)
    (hn : keyIsValid s inp.key_buf = false) :
    (lockHandler s inp.key_buf inp.opened1 inp.opened2).1 = false ∧
    newEvents s (loop crc8 s inp) = readerEvents inp ++
      [Event.tone BUZZER_PIN LOW_TONE, Event.delay READER_DELAY, Event.noTone BUZZER_PIN] ∧
    (∀ pin level, Event.digitalWrite pin level ∉ newEvents s (loop crc8 s inp)) ∧
    (loop crc8 s inp).pins = s.pins ∧
    (loop crc8 s inp).valid_keys = s.valid_keys ∧
    (loop crc8 s inp).key_count = s.key_count ∧
    (loop crc8 s inp).eeprom = s.eeprom := by
  have hl := loop_normal_unknown crc8 s inp hm hv hn
  have he : newEvents s (loop crc8 s inp) = readerEvents inp ++
      [Event.tone BUZZER_PIN LOW_TONE, Event.delay READER_DELAY, Event.noTone BUZZER_PIN] := by
    rw [hl]
    simp [newEvents, resultEvents]
  refine ⟨by rw [lockHandler_unknown _ _ _ _ hn], he, ?_, by rw [hl], by rw [hl], by rw [hl],
    by rw [hl]⟩
  intro pin level hmem
  rw [he] at hmem
  simp [readerEvents] at hmem

/-- The refusal at the registry `keyA, keyB` with a frame carrying `keyC`. -/
theorem loop_normal_refused_sample :
    stateAB.mode = MODE_NORMAL ∧
    ValidFrame (fun _ => 36) ⟨true, keyC, false, true, false⟩ ∧
    keyIsValid stateAB keyC = false ∧
    (lockHandler stateAB keyC false true).1 = false ∧
    (loop (fun _ => 36) stateAB ⟨true, keyC, false, true, false⟩).pins = stateAB.pins :=
  have hv : ValidFrame (fun _ => 36) ⟨true, keyC, false, true, false⟩ := by
    simp [ValidFrame, keyC]
  have h := loop_normal_refused (fun _ => 36) stateAB ⟨true, keyC, false, true, false⟩
    rfl hv (by decide)
  ⟨rfl, hv, by decide, h.1, h.2.2.2.1⟩

/-! ## C12: wipe, then load -/

theorem loadKeys_eq_bootLoad (s : State) :
    loadKeys s = bootLoad (if s.mode = MODE_WIPE then wipeEEPROM s else s) := rfl

theorem bootLoad_wiped (s : State) :
    bootLoad (wipeEEPROM s) = eepromGetKeys { wipeEEPROM s with key_count := 0 } := by
  simp [bootLoad, wipeEEPROM_eq, wiped_count]

theorem bootLoad_wiped_count (s : State) :
    (bootLoad (wipeEEPROM s)).key_count = 0 ∧
    (bootLoad (wipeEEPROM s)).eeprom KEY_CNT_ADDR = 0 := by
  rw [bootLoad_wiped]
  exact ⟨rfl, by simp [eepromGetKeys, wipeEEPROM_eq, wiped_count]⟩

theorem keyIsValid_zero_slots (s : State) (key : Key)
    (hz : ∀ i, i < KEY_MAX_CNT → s.valid_keys i = zeroKey) (hk : key.getD 0 0 = 0x01) :
    keyIsValid s key = false := by
  cases h : keyIsValid s key with
  | false => rfl
  | true =>
    simp only [keyIsValid, List.any_eq_true, List.mem_range] at h
    obtain ⟨i, hi, hm⟩ := h
    rw [hz i hi] at hm
    simp only [memcmpEq, List.all_eq_true, List.mem_range, beq_iff_eq] at hm
    have := hm 0 (by decide)
    rw [hk] at this
    simp [zeroKey] at this

/-- C12: whatever the EEPROM held, `wipeEEPROM` followed by the boot load
(count byte read, range check, key region read into `valid_keys`) gives
`key_count = 0`, the persisted count byte 0 and the 80 persisted key bytes 0,
and `keyIsValid` then refuses every key whose byte 0 is 0x01. -/
theorem c12_wipe_then_load (s : State) :
    (bootLoad (wipeEEPROM s)).key_count = 0 ∧
    (bootLoad (wipeEEPROM s)).eeprom KEY_CNT_ADDR = 0 ∧
    (∀ a, a < SIZEOF_VALID_KEYS → (bootLoad (wipeEEPROM s)).eeprom a = 0) ∧
    (∀ i, i < KEY_MAX_CNT → (bootLoad (wipeEEPROM s)).valid_keys i = zeroKey) ∧
    (∀ key : Key, key.getD 0 0 = 0x01 → keyIsValid (bootLoad (wipeEEPROM s)) key = false) := by
  have hk : ∀ a, a < SIZEOF_VALID_KEYS → (bootLoad (wipeEEPROM s)).eeprom a = 0 := by
    intro a ha
    rw [bootLoad_wiped]
    simp [eepromGetKeys, wipeEEPROM_eq, wiped_keys _ a ha]
  have hz : ∀ i, i < KEY_MAX_CNT → (bootLoad (wipeEEPROM s)).valid_keys i = zeroKey := by
    intro i hi
    rw [bootLoad_wiped]
    apply eepromGetKeys_wiped _ _ i hi
    intro a ha
    simp [wipeEEPROM_eq, wiped_keys _ a ha]
  refine ⟨by rw [bootLoad_wiped]; rfl, ?_, hk, hz, fun key hkey =>
    keyIsValid_zero_slots _ key hz hkey⟩
  rw [bootLoad_wiped]
  simp [eepromGetKeys, wipeEEPROM_eq, wiped_count]

/-- C12 over an EEPROM that held the count 3 and bytes 0x55, and `keyA`. -/
theorem c12_wipe_then_load_witness :
    keyA.getD 0 0 = 0x01 ∧
    (bootLoad (wipeEEPROM { zeroState with
      eeprom := fun a => if a = KEY_CNT_ADDR then 3 else 85 })).key_count = 0 ∧
    keyIsValid (bootLoad (wipeEEPROM { zeroState with
      eeprom := fun a => if a = KEY_CNT_ADDR then 3 else 85 })) keyA = false :=
  have h := c12_wipe_then_load { zeroState with
    eeprom := fun a => if a = KEY_CNT_ADDR then 3 else 85 }
  ⟨by decide, h.1, h.2.2.2.2 keyA (by decide)⟩

/-! ## The capacity and no-duplicate predicate -/

theorem countDistinct_addKey (s : State) (key : Key) (hs : SlotsWF s)
    (hk : key.length = KEY_LENGTH) (h : CountDistinct s) :
    CountDistinct (addKey s key).2 := by
  obtain ⟨hc, hd⟩ := h
  cases hv : keyIsValid s key with
  | true => rw [addKey_of_valid s key hv]; exact ⟨hc, hd⟩
  | false =>
    by_cases hfull : s.key_count = KEY_MAX_CNT
    · rw [addKey_of_full s key hfull]; exact ⟨hc, hd⟩
    · have hlt : s.key_count < KEY_MAX_CNT := Nat.lt_of_le_of_ne hc hfull
      obtain ⟨_, _, h3, h4⟩ := addKey_fresh_spec s key hk hlt hv
      have hnot : key ∉ liveKeys s := by
        intro hm
        obtain ⟨i, hi, hik⟩ := (mem_liveKeys s key).1 hm
        have := (keyIsValid_iff s key hs hk).2 ⟨i, Nat.lt_of_lt_of_le hi hc, hik⟩
        rw [hv] at this
        exact Bool.false_ne_true this
      refine ⟨by rw [h3]; exact hlt, ?_⟩
      rw [h4]
      refine List.Nodup.append hd (List.nodup_singleton key) ?_
      intro a ha hb
      rw [List.mem_singleton] at hb
      exact hnot (hb ▸ ha)

theorem liveKeys_removedAt_sublist (s : State) (p : Nat) (h1 : 0 < s.key_count)
    (hc : s.key_count ≤ KEY_MAX_CNT) :
    (liveKeys (removedAt s p)).Sublist (liveKeys s) := by
  by_cases hp : p < s.key_count
  · rw [liveKeys_removedAt s p hp hc]
    exact List.eraseIdx_sublist _ _
  · have hk := removedAt_key_count s p h1 hc
    have e : liveKeys (removedAt s p)
        = (List.range (removedAt s p).key_count).map s.valid_keys := by
      simp only [liveKeys]
      apply List.map_congr_left
      intro i hi
      have hi2 : i < (removedAt s p).key_count := List.mem_range.1 hi
      have hne : i ≠ s.key_count := by omega
      have hnp : ¬ (p ≤ i ∧ i < KEY_MAX_CNT) := by omega
      simp [removedAt, shiftedSlots, Function.update_noteq hne, hnp]
    rw [e]
    exact List.Sublist.map _ (List.range_sublist.2 (by omega))

theorem countDistinct_removeKey (s : State) (key : Key) (hs : SlotsWF s)
    (hk : key.length = KEY_LENGTH) (h : CountDistinct s)
    (hsafe : 0 < s.key_count ∨ ∀ i, i < KEY_MAX_CNT → s.valid_keys i ≠ key) :
    CountDistinct (removeKey s key).2 := by
  obtain ⟨hc, hd⟩ := h
  by_cases hex : ∃ i, i < KEY_MAX_CNT ∧ s.valid_keys i = key
  · obtain ⟨p, hp, hpk, hno⟩ := exists_first_slot s.valid_keys key KEY_MAX_CNT hex
    have h1 : 0 < s.key_count := by
      rcases hsafe with h | h
      · exact h
      · exact absurd hpk (h p hp)
    have hkc := removedAt_key_count s p h1 hc
    rw [removeKey_first s key p hs hk hp hpk hno]
    refine ⟨?_, (liveKeys_removedAt_sublist s p h1 hc).nodup hd⟩
    have hc2 : s.key_count ≤ 10 := hc
    show (removedAt s p).key_count ≤ 10
    omega
  · rw [removeKey_absent s key hs hk (fun i hi hik => hex ⟨i, hi, hik⟩)]
    exact ⟨hc, hd⟩

theorem liveKeys_eepromGetKeys (s : State) (hc : s.key_count ≤ KEY_MAX_CNT) :
    liveKeys (eepromGetKeys s) = persistedKeys s.eeprom s.key_count := by
  simp only [liveKeys, persistedKeys, eepromGetKeys]
  apply List.map_congr_left
  intro i hi
  have : i < KEY_MAX_CNT := Nat.lt_of_lt_of_le (List.mem_range.1 hi) hc
  simp [this]

theorem bootLoad_countDistinct (s : State) :
    (bootLoad s).key_count ≤ KEY_MAX_CNT ∧
    ((persistedKeys s.eeprom (s.eeprom KEY_CNT_ADDR)).Nodup → (liveKeys (bootLoad s)).Nodup) := by
  by_cases h : s.eeprom KEY_CNT_ADDR > KEY_MAX_CNT
  · have e : bootLoad s = eepromGetKeys (wipeEEPROM { s with key_count := 0 }) := by
      simp [bootLoad, h]
    rw [e]
    refine ⟨Nat.zero_le _, fun _ => ?_⟩
    have : liveKeys (eepromGetKeys (wipeEEPROM { s with key_count := 0 })) = [] := by
      simp [liveKeys, eepromGetKeys, wipeEEPROM_eq]
    rw [this]
    exact List.nodup_nil
  · have e : bootLoad s = eepromGetKeys { s with key_count := s.eeprom KEY_CNT_ADDR } := by
      simp [bootLoad, h]
    have hle : s.eeprom KEY_CNT_ADDR ≤ KEY_MAX_CNT := Nat.le_of_not_gt h
    rw [e]
    refine ⟨hle, fun hn => ?_⟩
    rw [liveKeys_eepromGetKeys _ hle]
    exact hn

theorem setup_countDistinct (s : State) (jp1 jp2 probe : Bool) :
    (setup s jp1 jp2 probe).key_count ≤ KEY_MAX_CNT ∧
    ((persistedKeys s.eeprom (s.eeprom KEY_CNT_ADDR)).Nodup →
      (liveKeys (setup s jp1 jp2 probe)).Nodup) := by
  have he : (readJumpers (initPins s) jp1 jp2 probe).eeprom = s.eeprom := by
    rw [readJumpers_eeprom, initPins_eq]
  have hl : ∀ t : State, liveKeys (startupBeep t) = liveKeys t := by
    intro t; rw [startupBeep_eq]; rfl
  have hk : ∀ t : State, (startupBeep t).key_count = t.key_count := by
    intro t; rw [startupBeep_eq]
  rw [setup, hl, hk, loadKeys_eq_bootLoad]
  split
  · rename_i hm
    have h := bootLoad_wiped_count (readJumpers (initPins s) jp1 jp2 probe)
    rw [h.1]
    refine ⟨Nat.zero_le _, fun _ => ?_⟩
    have : liveKeys (bootLoad (wipeEEPROM (readJumpers (initPins s) jp1 jp2 probe))) = [] := by
      simp [liveKeys, h.1]
    rw [this]
    exact List.nodup_nil
  · have := bootLoad_countDistinct (readJumpers (initPins s) jp1 jp2 probe)
    rw [he] at this
    exact this

/-- The boot copies the persisted entries as they are: over an EEPROM with the
count byte 2 and a key region of zero bytes, `setup` returns with two equal
live entries. -/
theorem setup_loads_duplicates :
    liveKeys (setup dupStore true true true) = [zeroKey, zeroKey] ∧
    ¬ CountDistinct (setup dupStore true true true) := by
  refine ⟨by decide, ?_⟩
  intro h
  exact absurd h.2 (by decide)

/-- When `setup` returns `key_count <= 10`, and the live
entries are pairwise distinct whenever the first `count` entries of the
persisted key region were; the predicate `key_count <= 10` and live entries
pairwise distinct is preserved by every `addKey` call, for every key, and by
every `removeKey` call made with `key_count >= 1` or with a key that equals
none of the ten slots. -/
theorem countDistinct_preserved :
    (∀ (s : State) (jp1 jp2 probe : Bool),
      (setup s jp1 jp2 probe).key_count ≤ KEY_MAX_CNT ∧
      ((persistedKeys s.eeprom (s.eeprom KEY_CNT_ADDR)).Nodup →
        CountDistinct (setup s jp1 jp2 probe))) ∧
    (∀ (s : State) (key : Key), SlotsWF s → key.length = KEY_LENGTH → CountDistinct s →
      CountDistinct (addKey s key).2) ∧
    (∀ (s : State) (key : Key), SlotsWF s → key.length = KEY_LENGTH → CountDistinct s →
      (0 < s.key_count ∨ ∀ i, i < KEY_MAX_CNT → s.valid_keys i ≠ key) →
      CountDistinct (removeKey s key).2) := by
  refine ⟨fun s jp1 jp2 probe => ?_, countDistinct_addKey, countDistinct_removeKey⟩
  have h := setup_countDistinct s jp1 jp2 probe
  exact ⟨h.1, fun hn => ⟨h.1, h.2 hn⟩⟩

/-- The predicate at the registry `keyA, keyB, keyC`: removing `keyB`, and
adding `keyB` a second time; and the boot over a zero EEPROM. -/
theorem countDistinct_preserved_sample :
    SlotsWF stateABC ∧ keyB.length = KEY_LENGTH ∧ CountDistinct stateABC ∧
    0 < stateABC.key_count ∧
    CountDistinct (removeKey stateABC keyB).2 ∧
    CountDistinct (addKey stateABC keyB).2 ∧
    CountDistinct (setup zeroState true true true) :=
  have hcd : CountDistinct stateABC := ⟨by decide, by decide⟩
  ⟨slotsWF_stateABC, by decide, hcd, by decide,
    countDistinct_preserved.2.2 stateABC keyB slotsWF_stateABC (by decide) hcd
      (Or.inl (by decide)),
    countDistinct_preserved.2.1 stateABC keyB slotsWF_stateABC (by decide) hcd,
    (countDistinct_preserved.1 zeroState true true true).2 (by decide)⟩

/-! ## C14: the order of the EEPROM writes -/

theorem arrayBytes_length (vk : Nat → Key) : (arrayBytes vk).length = SIZEOF_VALID_KEYS := by
  simp [arrayBytes]

theorem persistedInOrder_intro (s : State) (vk : Nat → Key) (kc : Nat) :
    PersistedInOrder s { s with
      key_count := kc
      valid_keys := vk
      eeprom := eepromStore (eepromStore s.eeprom KEY_S_ADDR (arrayBytes vk)) KEY_CNT_ADDR [kc]
      trace := s.trace ++ [Event.eepromWrite KEY_S_ADDR (arrayBytes vk),
        Event.eepromWrite KEY_CNT_ADDR [kc]] } := by
  refine ⟨by simp [newEvents], arrayBytes_length vk, ?_, by simp [eepromStore]⟩
  intro a ha
  have h1 : ¬ (KEY_CNT_ADDR ≤ KEY_S_ADDR + a ∧ KEY_S_ADDR + a < KEY_CNT_ADDR + 1) := by
    have : a < 80 := ha
    show ¬ (511 ≤ 0 + a ∧ 0 + a < 511 + 1)
    omega
  have h2 : KEY_S_ADDR ≤ KEY_S_ADDR + a ∧
      KEY_S_ADDR + a < KEY_S_ADDR + (arrayBytes vk).length := by
    rw [arrayBytes_length]
    exact ⟨Nat.le_add_right _ _, Nat.add_lt_add_left ha _⟩
  simp only [eepromStore, List.length_singleton, if_neg h1, if_pos h2, Nat.add_sub_cancel_left]

theorem addKey_persisted (s : State) (key : Key) (h : (addKey s key).1 = true) :
    PersistedInOrder s (addKey s key).2 := by
  cases hv : keyIsValid s key with
  | true => rw [addKey_of_valid s key hv] at h; exact absurd h Bool.false_ne_true
  | false =>
    by_cases hfull : s.key_count = KEY_MAX_CNT
    · rw [addKey_of_full s key hfull] at h; exact absurd h Bool.false_ne_true
    · rw [addKey_fresh s key hv hfull]
      exact persistedInOrder_intro s _ _

theorem removeKey_persisted (s : State) (key : Key) (h : (removeKey s key).1 = true) :
    PersistedInOrder s (removeKey s key).2 := by
  unfold removeKey at h ⊢
  simp only at h ⊢
  split at h
  · rename_i hr
    rw [if_pos hr]
    simp only [eepromPut, emit, List.append_assoc, List.singleton_append]
    exact persistedInOrder_intro s _ _
  · exact absurd h Bool.false_ne_true

/-- C14: every `addKey` or `removeKey` call that returns true makes exactly
two EEPROM writes, first the 80 bytes of `valid_keys` at address 0, then the
count byte at address 511; the bytes written are those of `valid_keys` and
`key_count` as they are on return, so the persisted array and count equal the
ones in RAM. -/
theorem c14_array_then_count (s : State) (key : Key) :
    ((addKey s key).1 = true → PersistedInOrder s (addKey s key).2) ∧
    ((removeKey s key).1 = true → PersistedInOrder s (removeKey s key).2) :=
  ⟨addKey_persisted s key, removeKey_persisted s key⟩

/-- C14 at the registry `keyA, keyB`: adding `keyC`, removing `keyA`. -/
theorem c14_array_then_count_witness :
    (addKey stateAB keyC).1 = true ∧ (removeKey stateAB keyA).1 = true ∧
    PersistedInOrder stateAB (addKey stateAB keyC).2 ∧
    PersistedInOrder stateAB (removeKey stateAB keyA).2 :=
  ⟨by decide, by decide, (c14_array_then_count stateAB keyC).1 (by decide),
    (c14_array_then_count stateAB keyA).2 (by decide)⟩

/-- The log of writes of `addKey(keyC)` on the registry `keyA, keyB`. -/
theorem addKey_log_sample :
    newEvents stateAB (addKey stateAB keyC).2 =
      [Event.eepromWrite 0 (keyA ++ keyB ++ keyC ++ List.replicate 56 0),
       Event.eepromWrite 511 [3]] := by
  decide

/-! ## C15: Unused mode -/

theorem loop_default (crc8 : List Nat → Nat) (s : State) (inp : LoopInput)
    (hv : ValidFrame crc8 inp) (h0 : s.mode ≠ MODE_NORMAL) (h1 : s.mode ≠ MODE_ADD)
    (h2 : s.mode ≠ MODE_REMOVE) :
    loop crc8 s inp = { s with
      trace := (s.trace ++ readerEvents inp ++ beepEvents s.mode ++
        resultEvents inp.resGarbage) } := by
  obtain ⟨hp, hf⟩ := (validFrame_iff crc8 inp).1 hv
  have hd : dispatch { s with trace := s.trace ++ readerEvents inp } inp
      = (inp.resGarbage, { s with trace := s.trace ++ readerEvents inp }) := by
    simp [dispatch, h0, h1, h2]
  rw [loop_frameOk crc8 s inp hp hf, hd, feedback_eq]

/-- In Unused mode a valid frame changes nothing but the log: no registry
call, no relay output, three mode beeps and then one result tone. -/
theorem loop_unused (crc8 : List Nat → Nat) (s : State) (inp : LoopInput)
    (hm : s.mode = MODE_UNUSED) (hv : ValidFrame crc8 inp) :
    (loop crc8 s inp).valid_keys = s.valid_keys ∧
    (loop crc8 s inp).key_count = s.key_count ∧
    (loop crc8 s inp).eeprom = s.eeprom ∧
    (loop crc8 s inp).pins = s.pins ∧
    newEvents s (loop crc8 s inp) = readerEvents inp ++ beepEvents 3 ++
      [Event.tone BUZZER_PIN (if inp.resGarbage then HIGH_TONE else LOW_TONE),
        Event.delay READER_DELAY, Event.noTone BUZZER_PIN] := by
  have h := loop_default crc8 s inp hv (by rw [hm]; decide) (by rw [hm]; decide)
    (by rw [hm]; decide)
  rw [h, hm]
  refine ⟨rfl, rfl, rfl, rfl, ?_⟩
  simp [newEvents, resultEvents]

/-- C15 fails on the code: in Unused mode the `switch` assigns nothing to
`res`, and the tone is chosen from it.  Two runs from the same state with the
same valid frame differ in the feedback: 2000 Hz when the uninitialised
`res` holds true, 200 Hz when it holds false. -/
theorem c15_unused_tone_from_uninitialised :
    unusedState.mode = MODE_UNUSED ∧
    ValidFrame (fun _ => 16) (frameA true) ∧ ValidFrame (fun _ => 16) (frameA false) ∧
    (frameA true).key_buf = (frameA false).key_buf ∧
    newEvents unusedState (loop (fun _ => 16) unusedState (frameA true)) =
      readerEvents (frameA true) ++ beepEvents 3 ++
        [Event.tone BUZZER_PIN 2000, Event.delay 1000, Event.noTone BUZZER_PIN] ∧
    newEvents unusedState (loop (fun _ => 16) unusedState (frameA false)) =
      readerEvents (frameA false) ++ beepEvents 3 ++
        [Event.tone BUZZER_PIN 200, Event.delay 1000, Event.noTone BUZZER_PIN] ∧
    newEvents unusedState (loop (fun _ => 16) unusedState (frameA true)) ≠
      newEvents unusedState (loop (fun _ => 16) unusedState (frameA false)) := by
  have hv1 : ValidFrame (fun _ => 16) (frameA true) := by simp [ValidFrame, frameA, keyA]
  have hv2 : ValidFrame (fun _ => 16) (frameA false) := by simp [ValidFrame, frameA, keyA]
  have h1 := (loop_unused (fun _ => 16) unusedState (frameA true) rfl hv1).2.2.2.2
  have h2 := (loop_unused (fun _ => 16) unusedState (frameA false) rfl hv2).2.2.2.2
  refine ⟨rfl, hv1, hv2, rfl, h1, h2, ?_⟩
  rw [h1, h2]
  decide

/-! ## C16: which slots `removeKey` writes -/

/-- The slots after a successful `removeKey`, by index: below the first match
`p` unchanged, from `p` to 9 the old successor, and slot `key_count` (the
old value) zero. -/
theorem removeKey_slots (s : State) (key : Key) (p : Nat) (hs : SlotsWF s)
    (hk : key.length = KEY_LENGTH) (hp : p < KEY_MAX_CNT) (hpk : s.valid_keys p = key)
    (hno : ∀ i, i < p → s.valid_keys i ≠ key) (i : Nat) :
    (removeKey s key).2.valid_keys i =
      if i = s.key_count then zeroKey
      else if p ≤ i ∧ i < KEY_MAX_CNT then s.valid_keys (i + 1) else s.valid_keys i := by
  rw [removeKey_first s key p hs hk hp hpk hno]
  simp only [removedAt]
  by_cases hi : i = s.key_count
  · subst hi; simp
  · rw [Function.update_noteq hi, if_neg hi]
    rfl

/-- When the unused slots and the 8 bytes after the array are zero, removing
a live key leaves slot `key_count - 1` zero and every slot from `key_count`
on as it was. -/
theorem removeKey_zero_tail (s : State) (key : Key) (hs : SlotsWF s)
    (hk : key.length = KEY_LENGTH) (hc : s.key_count ≤ KEY_MAX_CNT) (hm : key ∈ liveKeys s)
    (hz : ∀ i, s.key_count ≤ i → i ≤ KEY_MAX_CNT → s.valid_keys i = zeroKey) :
    (removeKey s key).2.valid_keys (s.key_count - 1) = zeroKey ∧
    ∀ i, s.key_count ≤ i → (removeKey s key).2.valid_keys i = s.valid_keys i := by
  obtain ⟨p, hp, hpk, hno⟩ :=
    exists_first_slot s.valid_keys key s.key_count ((mem_liveKeys s key).1 hm)
  have hc2 : s.key_count ≤ 10 := hc
  have hsl := removeKey_slots s key p hs hk (Nat.lt_of_lt_of_le hp hc) hpk hno
  constructor
  · rw [hsl]
    have h1 : s.key_count - 1 ≠ s.key_count := by omega
    have h2 : p ≤ s.key_count - 1 ∧ s.key_count - 1 < KEY_MAX_CNT :=
      ⟨by omega, by show s.key_count - 1 < 10; omega⟩
    rw [if_neg h1, if_pos h2]
    exact hz _ (by omega) (by show s.key_count - 1 + 1 ≤ 10; omega)
  · intro i hi
    rw [hsl]
    by_cases h1 : i = s.key_count
    · rw [if_pos h1, h1]
      exact (hz _ (Nat.le_refl _) hc).symm
    · rw [if_neg h1]
      split
      · rename_i h2
        have h3 : i < 10 := h2.2
        rw [hz (i + 1) (by omega) (by show i + 1 ≤ 10; omega), hz i hi (by show i ≤ 10; omega)]
      · rfl

/-- C16 fails on the code.  With a full registry (`key_count = 10`) and
nonzero bytes after the array, `removeKey` of a live key leaves slot 9
(`key_count - 1`) holding those bytes, not zeroes, and writes its zeroes at
index 10, outside the array.  With the live entries `keyA, keyB` and the bytes
of `keyC` in the unused slot 2, `removeKey(keyA)` leaves slot 1 holding
`keyC` and overwrites slot 2. -/
theorem c16_wrong_slot_zeroed :
    (fullStrayState.key_count = 10 ∧ tokenN 0 ∈ liveKeys fullStrayState ∧
      (removeKey fullStrayState (tokenN 0)).1 = true ∧
      (removeKey fullStrayState (tokenN 0)).2.valid_keys 9 = keyB ∧
      (removeKey fullStrayState (tokenN 0)).2.valid_keys 9 ≠ zeroKey ∧
      fullStrayState.valid_keys 10 = keyB ∧
      (removeKey fullStrayState (tokenN 0)).2.valid_keys 10 = zeroKey) ∧
    (staleState.key_count = 2 ∧ keyA ∈ liveKeys staleState ∧
      (removeKey staleState keyA).1 = true ∧
      (removeKey staleState keyA).2.valid_keys 1 = keyC ∧
      (removeKey staleState keyA).2.valid_keys 1 ≠ zeroKey ∧
      staleState.valid_keys 2 = keyC ∧
      (removeKey staleState keyA).2.valid_keys 2 = zeroKey) := by
  refine ⟨⟨rfl, by decide, by decide, by decide, by decide, by decide, by decide⟩,
    ⟨rfl, by decide, by decide, by decide, by decide, by decide, by decide⟩⟩

/-- The zero-tail case at the registry `keyA, keyB, keyC`. -/
theorem removeKey_zero_tail_sample :
    (removeKey stateABC keyB).2.valid_keys 2 = zeroKey ∧
    (removeKey stateABC keyB).2.valid_keys 3 = stateABC.valid_keys 3 := by
  decide

/-! ## C17: the feedback after a dispatch -/

theorem beepEvents_eq_repeat (n : Nat) : beepEvents n = repeatEvents beepPulse n := by
  induction n with
  | zero => rfl
  | succ n ih => simp only [beepEvents, repeatEvents, ih, beepPulse]

theorem addKey_mode (s : State) (key : Key) : (addKey s key).2.mode = s.mode := by
  unfold addKey
  split
  · rfl
  · split <;> rfl

theorem removeKey_mode (s : State) (key : Key) : (removeKey s key).2.mode = s.mode := by
  unfold removeKey
  simp only
  split <;> rfl

theorem lockHandler_mode (s : State) (key : Key) (o1 o2 : Bool) :
    (lockHandler s key o1 o2).2.mode = s.mode := by
  cases hv : keyIsValid s key with
  | false => rw [lockHandler_unknown s key o1 o2 hv]
  | true =>
    cases o1 with
    | true => rw [lockHandler_opened s key o2 hv]
    | false => rw [lockHandler_closed s key o2 hv]

theorem dispatch_mode (s : State) (inp : LoopInput) : (dispatch s inp).2.mode = s.mode := by
  unfold dispatch
  split
  · exact lockHandler_mode _ _ _ _
  · split
    · exact addKey_mode _ _
    · split
      · exact removeKey_mode _ _
      · rfl

theorem loop_feedback_trace (crc8 : List Nat → Nat) (s : State) (inp : LoopInput)
    (hv : ValidFrame crc8 inp) :
    (loop crc8 s inp).trace =
      (dispatch { s with trace := s.trace ++ readerEvents inp } inp).2.trace ++
        repeatEvents beepPulse s.mode ++
        resultEvents (dispatch { s with trace := s.trace ++ readerEvents inp } inp).1 := by
  obtain ⟨hp, hf⟩ := (validFrame_iff crc8 inp).1 hv
  rw [loop_frameOk crc8 s inp hp hf, feedback_eq, dispatch_mode, beepEvents_eq_repeat]

/-- C17: for a valid frame in mode Normal, Add or Remove the handler called is
`lockHandler`, `addKey` or `removeKey` respectively, and what the iteration
logs after the handler is exactly `mode` beeps (1000 Hz for 50 ms, silence for
50 ms) followed by one tone held for 1000 ms, at 2000 Hz when the handler
returned true and at 200 Hz when it returned false. -/
theorem c17_feedback (crc8 : List Nat → Nat) (s sr : State) (inp : LoopInput)
    (hv : ValidFrame crc8 inp) (hsr : sr = { s with trace := s.trace ++ readerEvents inp }) :
    (s.mode = MODE_NORMAL →
      (loop crc8 s inp).trace =
        (lockHandler sr inp.key_buf inp.opened1 inp.opened2).2.trace ++
        repeatEvents beepPulse 0 ++
        [Event.tone BUZZER_PIN
          (if (lockHandler sr inp.key_buf inp.opened1 inp.opened2).1 then 2000 else 200),
          Event.delay 1000, Event.noTone BUZZER_PIN]) ∧
    (s.mode = MODE_ADD →
      (loop crc8 s inp).trace =
        (addKey sr inp.key_buf).2.trace ++ repeatEvents beepPulse 1 ++
        [Event.tone BUZZER_PIN (if (addKey sr inp.key_buf).1 then 2000 else 200),
          Event.delay 1000, Event.noTone BUZZER_PIN]) ∧
    (s.mode = MODE_REMOVE →
      (loop crc8 s inp).trace =
        (removeKey sr inp.key_buf).2.trace ++ repeatEvents beepPulse 2 ++
        [Event.tone BUZZER_PIN (if (removeKey sr inp.key_buf).1 then 2000 else 200),
          Event.delay 1000, Event.noTone BUZZER_PIN]) := by
  subst hsr
  have h := loop_feedback_trace crc8 s inp hv
  refine ⟨fun hm => ?_, fun hm => ?_, fun hm => ?_⟩
  · have hd : dispatch { s with trace := s.trace ++ readerEvents inp } inp
        = lockHandler { s with trace := s.trace ++ readerEvents inp }
            inp.key_buf inp.opened1 inp.opened2 := by
      simp [dispatch, hm]
    rw [h, hd, hm]
    rfl
  · have hd : dispatch { s with trace := s.trace ++ readerEvents inp } inp
        = addKey { s with trace := s.trace ++ readerEvents inp } inp.key_buf := by
      simp [dispatch, hm]
    rw [h, hd, hm]
    rfl
  · have hd : dispatch { s with trace := s.trace ++ readerEvents inp } inp
        = removeKey { s with trace := s.trace ++ readerEvents inp } inp.key_buf := by
      simp [dispatch, hm]
    rw [h, hd, hm]
    rfl

/-- C17 in Add mode at the registry `keyA, keyB`, with a frame carrying
`keyA`: `addKey` refuses, one beep, then 200 Hz. -/
theorem c17_feedback_witness :
    ValidFrame (fun _ => 16) (frameA false) ∧
    (loop (fun _ => 16) addModeState (frameA false)).trace =
      readerEvents (frameA false) ++
        [Event.tone 9 1000, Event.delay 50, Event.noTone 9, Event.delay 50,
         Event.tone 9 200, Event.delay 1000, Event.noTone 9] := by
  have hv : ValidFrame (fun _ => 16) (frameA false) := by simp [ValidFrame, frameA, keyA]
  have h := (c17_feedback (fun _ => 16) addModeState
    { addModeState with trace := addModeState.trace ++ readerEvents (frameA false) }
    (frameA false) hv rfl).2.1 rfl
  refine ⟨hv, ?_⟩
  rw [h]
  decide

/-! ## C18: slot indices -/

theorem keyIsValidIdx_lt (vk : Nat → Key) (key : Key) (n : Nat) :
    ∀ i x, x ∈ keyIsValidIdx vk key n i → x < i + n := by
  induction n with
  | zero => intro i x hx; simp [keyIsValidIdx] at hx
  | succ n ih =>
    intro i x hx
    simp only [keyIsValidIdx, List.mem_cons] at hx
    rcases hx with hx | hx
    · omega
    · split at hx
      · simp at hx
      · have := ih (i + 1) x hx
        omega

/-- The accesses of `keyIsValid` and, when `key_count <= 10`, of `addKey`
stay inside the array. -/
theorem keyIsValid_addKey_in_range (s : State) (key : Key) (hc : s.key_count ≤ KEY_MAX_CNT) :
    (∀ x, x ∈ keyIsValidAccess s key → x < KEY_MAX_CNT) ∧
    (∀ x, x ∈ addKeyAccess s key → x < KEY_MAX_CNT) := by
  have h1 : ∀ x, x ∈ keyIsValidAccess s key → x < KEY_MAX_CNT := by
    intro x hx
    have := keyIsValidIdx_lt s.valid_keys key _ 0 x hx
    simpa using this
  refine ⟨h1, ?_⟩
  intro x hx
  simp only [addKeyAccess, List.mem_append] at hx
  rcases hx with hx | hx
  · exact h1 x hx
  · split at hx
    · simp at hx
    · split at hx
      · simp at hx
      · rename_i hne
        simp only [List.mem_singleton] at hx
        rw [hx]
        exact Nat.lt_of_le_of_ne hc hne

theorem removeKeyLoopIdx_flag (key : Key) (n : Nat) :
    ∀ (i : Nat) (vk : Nat → Key), i + n + 1 ∈ removeKeyLoopIdx key (n + 1) i (true, vk) := by
  induction n with
  | zero => intro i vk; simp [removeKeyLoopIdx]
  | succ n ih =>
    intro i vk
    have := ih (i + 1) (Function.update vk i (copyKey (vk (i + 1))))
    have e : i + 1 + n + 1 = i + (n + 1) + 1 := by omega
    rw [e] at this
    rw [removeKeyLoopIdx]
    simp only [Bool.true_or, if_true, List.nil_append, List.mem_append]
    exact Or.inr this

theorem removeKeyLoopIdx_found (key : Key) (n : Nat) :
    ∀ (i : Nat) (vk : Nat → Key), (removeKeyLoop key n i (false, vk)).1 = true →
      i + n ∈ removeKeyLoopIdx key n i (false, vk) := by
  induction n with
  | zero =>
    intro i vk h
    exact absurd h Bool.false_ne_true
  | succ n ih =>
    intro i vk h
    rw [removeKeyLoopIdx]
    cases hm : memcmpEq key (vk i) with
    | true =>
      simp only [Bool.false_or, if_true, Bool.false_eq_true, if_false]
      rw [List.mem_append, List.mem_append]
      cases n with
      | zero => exact Or.inr (Or.inl (by simp))
      | succ m =>
        have := removeKeyLoopIdx_flag key m (i + 1) (Function.update vk i (copyKey (vk (i + 1))))
        have e : i + 1 + m + 1 = i + (m + 1 + 1) := by omega
        rw [e] at this
        exact Or.inr (Or.inr this)
    | false =>
      simp only [removeKeyLoop, hm, Bool.or_self, Bool.false_eq_true, if_false] at h
      have := ih (i + 1) vk h
      have e : i + 1 + n = i + (n + 1) := by omega
      rw [e] at this
      simp only [Bool.or_self, Bool.false_eq_true, if_false, List.mem_append]
      exact Or.inr this

theorem removeKey_fst (s : State) (key : Key) :
    (removeKey s key).1 =
      (removeKeyLoop key (SIZEOF_VALID_KEYS / KEY_LENGTH) 0 (false, s.valid_keys)).1 := by
  unfold removeKey
  simp only
  split
  · rename_i h; rw [h]
  · rename_i h
    cases hr : (removeKeyLoop key (SIZEOF_VALID_KEYS / KEY_LENGTH) 0 (false, s.valid_keys)).1 with
    | false => rfl
    | true => exact absurd hr h

/-- Every `removeKey` call that returns true has evaluated `valid_keys[10]`. -/
theorem removeKey_uses_slot_10 (s : State) (key : Key) (h : (removeKey s key).1 = true) :
    KEY_MAX_CNT ∈ removeKeyAccess s key := by
  rw [removeKey_fst] at h
  have := removeKeyLoopIdx_found key (SIZEOF_VALID_KEYS / KEY_LENGTH) 0 s.valid_keys h
  simp only [removeKeyAccess, List.mem_append]
  exact Or.inl (by simpa using this)

/-- C18 fails on the code.  At the registry `keyA, keyB, keyC`
(`key_count = 3`), `removeKey(keyB)` evaluates `valid_keys[i + 1]` with
`i = 9`, index 10.  At a full registry (`key_count = 10`) `removeKey` of the
last entry evaluates index 10 twice: in the shift and in the zeroing of
`valid_keys[key_count]`. -/
theorem c18_removeKey_index_10 :
    (stateABC.key_count ≤ KEY_MAX_CNT ∧
      removeKeyAccess stateABC keyB =
        [0, 1, 1, 2, 2, 3, 3, 4, 4, 5, 5, 6, 6, 7, 7, 8, 8, 9, 9, 10, 3] ∧
      ¬ ∀ x, x ∈ removeKeyAccess stateABC keyB → x < KEY_MAX_CNT) ∧
    (fullStrayState.key_count ≤ KEY_MAX_CNT ∧
      removeKeyAccess fullStrayState (tokenN 9) = [0, 1, 2, 3, 4, 5, 6, 7, 8, 9, 9, 10, 10] ∧
      ¬ ∀ x, x ∈ removeKeyAccess fullStrayState (tokenN 9) → x < KEY_MAX_CNT) := by
  have h1 : removeKeyAccess stateABC keyB =
      [0, 1, 1, 2, 2, 3, 3, 4, 4, 5, 5, 6, 6, 7, 7, 8, 8, 9, 9, 10, 3] := by decide
  have h2 : removeKeyAccess fullStrayState (tokenN 9)
      = [0, 1, 2, 3, 4, 5, 6, 7, 8, 9, 9, 10, 10] := by decide
  refine ⟨⟨by decide, h1, ?_⟩, ⟨by decide, h2, ?_⟩⟩
  · intro h
    exact absurd (h 10 (by rw [h1]; decide)) (by decide)
  · intro h
    exact absurd (h 10 (by rw [h2]; decide)) (by decide)

/-- The indices of `keyIsValid` and `addKey` at the registry `keyA, keyB, keyC`. -/
theorem access_sample :
    keyIsValidAccess stateABC keyB = [0, 1] ∧
    addKeyAccess stateABC (tokenN 0) = [0, 1, 2, 3, 4, 5, 6, 7, 8, 9, 3] := by
  decide

/-! ## C19: the relay outputs -/

theorem moveLock_pins (s : State) (pin1 pin2 : Nat) :
    (moveLock s pin1 pin2).pins pin1 = true ∧ (moveLock s pin1 pin2).pins pin2 = true ∧
    ∀ q, q ≠ pin1 → q ≠ pin2 → (moveLock s pin1 pin2).pins q = s.pins q := by
  rw [moveLock_eq]
  refine ⟨?_, by simp, ?_⟩
  · by_cases h : pin1 = pin2
    · subst h; simp
    · simp [Function.update_noteq h]
  · intro q h1 h2
    simp [Function.update_noteq h1, Function.update_noteq h2]

theorem moveLock_relaysHigh (s : State) (pin1 pin2 : Nat) (h : RelaysHigh s) :
    RelaysHigh (moveLock s pin1 pin2) := by
  obtain ⟨h1, h2, h3⟩ := moveLock_pins s pin1 pin2
  intro pin hp
  by_cases e1 : pin = pin1
  · rw [e1]; exact h1
  · by_cases e2 : pin = pin2
    · rw [e2]; exact h2
    · rw [h3 pin e1 e2]; exact h pin hp

theorem addKey_pins (s : State) (key : Key) : (addKey s key).2.pins = s.pins := by
  unfold addKey
  split
  · rfl
  · split <;> rfl

theorem removeKey_pins (s : State) (key : Key) : (removeKey s key).2.pins = s.pins := by
  unfold removeKey
  simp only
  split <;> rfl

theorem lockHandler_relaysHigh (s : State) (key : Key) (o1 o2 : Bool) (h : RelaysHigh s) :
    RelaysHigh (lockHandler s key o1 o2).2 := by
  unfold lockHandler
  split
  · cases o1 with
    | true =>
      have := moveLock_relaysHigh (digitalRead s LOCK_STATUS_PIN true)
        (RELAY_PINS.getD 2 0) (RELAY_PINS.getD 3 0) h
      cases o2 <;> exact this
    | false =>
      have := moveLock_relaysHigh (digitalRead s LOCK_STATUS_PIN false)
        (RELAY_PINS.getD 0 0) (RELAY_PINS.getD 1 0) h
      cases o2 <;> exact this
  · exact h

theorem dispatch_relaysHigh (s : State) (inp : LoopInput) (h : RelaysHigh s) :
    RelaysHigh (dispatch s inp).2 := by
  unfold dispatch
  split
  · exact lockHandler_relaysHigh _ _ _ _ h
  · split
    · intro pin hp; rw [addKey_pins]; exact h pin hp
    · split
      · intro pin hp; rw [removeKey_pins]; exact h pin hp
      · exact h

theorem loop_relaysHigh (crc8 : List Nat → Nat) (s : State) (inp : LoopInput)
    (h : RelaysHigh s) : RelaysHigh (loop crc8 s inp) := by
  by_cases hv : inp.present = true ∧ frameOk crc8 inp.key_buf = true
  · rw [loop_frameOk crc8 s inp hv.1 hv.2, feedback_eq]
    exact dispatch_relaysHigh { s with trace := s.trace ++ readerEvents inp } inp h
  · rw [loop_rejected crc8 s inp hv]
    exact h

theorem readJumpers_pins (s : State) (jp1 jp2 probe : Bool) (q : Nat) (hq : q ≠ JP1_PIN) :
    (readJumpers s jp1 jp2 probe).pins q = s.pins q := by
  simp only [readJumpers, pinMode, digitalRead, digitalWrite, emit]
  split
  · simp [Function.update_noteq hq]
  · rfl

theorem loadKeys_pins (s : State) : (loadKeys s).pins = s.pins := by
  simp only [loadKeys, eepromGetKeys, wipeEEPROM_eq]
  split <;> split <;> rfl

theorem setup_relaysHigh (s : State) (jp1 jp2 probe : Bool) :
    RelaysHigh (setup s jp1 jp2 probe) := by
  intro pin hp
  have hne : pin ≠ JP1_PIN := by
    intro e
    rw [e] at hp
    exact absurd hp (by decide)
  rw [setup, startupBeep_eq]
  show (loadKeys _).pins pin = true
  rw [loadKeys_pins, readJumpers_pins _ _ _ _ pin hne, initPins_eq]
  simp only [RELAY_PINS, List.mem_cons, List.mem_singleton, List.not_mem_nil, or_false] at hp
  rcases hp with hp | hp | hp | hp <;> subst hp <;> simp

theorem runLoops_relaysHigh (crc8 : List Nat → Nat) (inps : List LoopInput) :
    ∀ s : State, RelaysHigh s → RelaysHigh (runLoops crc8 s inps) := by
  induction inps with
  | nil => intro s h; exact h
  | cons inp rest ih => intro s h; exact ih _ (loop_relaysHigh crc8 s inp h)

/-- C19: `moveLock(pin1, pin2)` writes both pins LOW, waits 500 ms and writes
both HIGH, and returns with both HIGH.  All four relay outputs are HIGH when
`setup` returns, stay HIGH across every iteration of `loop` that starts with
them HIGH, and so are HIGH after `setup` and any number of iterations, for
every mode, frame and sensor reading. -/
theorem c19_relays_released (crc8 : List Nat → Nat) (s : State) :
    (∀ pin1 pin2 : Nat,
      newEvents s (moveLock s pin1 pin2) =
        [Event.digitalWrite pin1 false, Event.digitalWrite pin2 false, Event.delay 500,
         Event.digitalWrite pin1 true, Event.digitalWrite pin2 true] ∧
      (moveLock s pin1 pin2).pins pin1 = true ∧ (moveLock s pin1 pin2).pins pin2 = true) ∧
    (∀ jp1 jp2 probe : Bool, RelaysHigh (setup s jp1 jp2 probe)) ∧
    (∀ inp : LoopInput, RelaysHigh s → RelaysHigh (loop crc8 s inp)) ∧
    (∀ (jp1 jp2 probe : Bool) (inps : List LoopInput),
      RelaysHigh (runLoops crc8 (setup s jp1 jp2 probe) inps)) := by
  refine ⟨fun pin1 pin2 => ⟨?_, (moveLock_pins s pin1 pin2).1, (moveLock_pins s pin1 pin2).2.1⟩,
    setup_relaysHigh s, fun inp h => loop_relaysHigh crc8 s inp h,
    fun jp1 jp2 probe inps => runLoops_relaysHigh crc8 inps _ (setup_relaysHigh s jp1 jp2 probe)⟩
  rw [moveLock_eq]
  simp [newEvents, pulseEvents]

/-- C19 in Normal mode at the registry `keyA, keyB`: a frame carrying `keyA`
with the sensor Closed before and after the pulse (verification fails). -/
theorem c19_relays_released_witness :
    RelaysHigh stateAB ∧
    RelaysHigh (loop (fun _ => 16) stateAB (frameA false)) ∧
    (lockHandler stateAB keyA false false).1 = false :=
  have h0 : RelaysHigh stateAB := fun _ _ => rfl
  ⟨h0, (c19_relays_released (fun _ => 16) stateAB).2.2.1 (frameA false) h0, by decide⟩

/-! ## A token left in an unused slot: C1, C4, C5, C11, C13 -/

theorem addKey_after_cut (s : State) (key : Key) (hv : keyIsValid s key = false)
    (hc : s.key_count ≠ KEY_MAX_CNT) :
    addKey s key = (true, eepromPut
      { addKeyCut s key with key_count := ((addKeyCut s key).key_count + 1) % 256 }
      KEY_CNT_ADDR [((addKeyCut s key).key_count + 1) % 256]) := by
  simp [addKey, addKeyCut, hv, hc, eepromPut, emit]

theorem bootLoad_slot_length (t : State) (i : Nat) (ht : (t.valid_keys i).length = KEY_LENGTH) :
    ((bootLoad t).valid_keys i).length = KEY_LENGTH := by
  by_cases hi : i < KEY_MAX_CNT
  · simp [bootLoad, eepromGetKeys, hi]
  · simp only [bootLoad, eepromGetKeys, if_neg hi]
    split
    · rw [wipeEEPROM_eq]; exact ht
    · exact ht

theorem readJumpers_valid_keys (s : State) (jp1 jp2 probe : Bool) :
    (readJumpers s jp1 jp2 probe).valid_keys = s.valid_keys := by
  simp only [readJumpers, pinMode, digitalRead, digitalWrite, emit]
  split <;> rfl

theorem slotsWF_setup (s : State) (jp1 jp2 probe : Bool) (hs : SlotsWF s) :
    SlotsWF (setup s jp1 jp2 probe) := by
  intro i
  rw [setup, startupBeep_eq]
  show ((loadKeys _).valid_keys i).length = KEY_LENGTH
  rw [loadKeys_eq_bootLoad]
  apply bootLoad_slot_length
  have h4 : (readJumpers (initPins s) jp1 jp2 probe).valid_keys = s.valid_keys := by
    rw [readJumpers_valid_keys, initPins_eq]
  split
  · rw [wipeEEPROM_eq]
    show ((readJumpers (initPins s) jp1 jp2 probe).valid_keys i).length = KEY_LENGTH
    rw [h4]; exact hs i
  · rw [h4]; exact hs i

theorem cutStore_eeprom :
    cutStore.eeprom KEY_CNT_ADDR = 0 ∧ persistedKeys cutStore.eeprom 1 = [keyA] ∧
    cutStore.eeprom = (addKeyCut zeroState keyA).eeprom := by
  refine ⟨by decide, by decide, rfl⟩

theorem validFrame_frameAOpen : ValidFrame (fun _ => 16) frameAOpen := by
  simp [ValidFrame, frameAOpen, keyA]

theorem slotsWF_cutStore : SlotsWF cutStore := fun i => slotsWF_zeroState i

theorem isToken_keyA : IsToken keyA := ⟨rfl, rfl⟩

/-- C1 fails on the code.  After `addKey(keyA)` was cut by a power loss
between the array write and the count write, the next boot has
`key_count = 0` and the token `keyA` in slot 0: no slot at an index below
`key_count` equals `keyA`, and `keyIsValid(keyA)` returns true. -/
theorem c1_token_in_unused_slot_accepted :
    SlotsWF bootNormal ∧ bootNormal.key_count ≤ KEY_MAX_CNT ∧ IsToken keyA ∧
    bootNormal.key_count = 0 ∧ bootNormal.valid_keys 0 = keyA ∧
    (¬ ∃ i, i < bootNormal.key_count ∧ bootNormal.valid_keys i = keyA) ∧
    keyIsValid bootNormal keyA = true := by
  refine ⟨slotsWF_setup _ _ _ _ slotsWF_cutStore, by decide, isToken_keyA, by decide,
    by decide, ?_, by decide⟩
  rintro ⟨i, hi, _⟩
  have h0 : bootNormal.key_count = 0 := by decide
  rw [h0] at hi
  exact Nat.not_lt_zero i hi

/-- C4 fails on the code.  After the same power loss and a boot in Add mode,
`key_count = 0 < 10` and `keyA` equals no live entry, yet `addKey(keyA)`
returns false: the iteration of `loop` that presents `keyA` leaves
`key_count` at 0 and sounds one mode beep and the 200 Hz tone. -/
theorem c4_token_in_unused_slot_refused :
    SlotsWF bootAdd ∧ bootAdd.mode = MODE_ADD ∧ bootAdd.key_count < KEY_MAX_CNT ∧
    IsToken keyA ∧ keyA ∉ liveKeys bootAdd ∧
    (addKey bootAdd keyA).1 = false ∧
    (addKey bootAdd keyA).2.key_count = 0 ∧
    ValidFrame (fun _ => 16) frameAOpen ∧
    (loop (fun _ => 16) bootAdd frameAOpen).key_count = 0 ∧
    newEvents bootAdd (loop (fun _ => 16) bootAdd frameAOpen) =
      readerEvents frameAOpen ++ beepPulse ++
        [Event.tone BUZZER_PIN LOW_TONE, Event.delay READER_DELAY, Event.noTone BUZZER_PIN] := by
  refine ⟨slotsWF_setup _ _ _ _ slotsWF_cutStore, by decide, by decide, isToken_keyA,
    by decide, by decide, by decide, validFrame_frameAOpen, by decide, by decide⟩

/-- C5 fails on the code.  After the same power loss and a boot in Remove
mode, `keyA` equals no live entry (`key_count = 0`), yet `removeKey(keyA)`
returns true, clears slot 0, writes the EEPROM and leaves `key_count` and the
persisted count byte at 255. -/
theorem c5_token_in_unused_slot_removed :
    SlotsWF bootRemove ∧ bootRemove.mode = MODE_REMOVE ∧ bootRemove.key_count ≤ KEY_MAX_CNT ∧
    IsToken keyA ∧ keyA ∉ liveKeys bootRemove ∧
    (removeKey bootRemove keyA).1 = true ∧
    bootRemove.valid_keys 0 = keyA ∧
    (removeKey bootRemove keyA).2.valid_keys 0 = zeroKey ∧
    bootRemove.key_count = 0 ∧
    (removeKey bootRemove keyA).2.key_count = 255 ∧
    bootRemove.eeprom KEY_CNT_ADDR = 0 ∧
    (removeKey bootRemove keyA).2.eeprom KEY_CNT_ADDR = 255 := by
  refine ⟨slotsWF_setup _ _ _ _ slotsWF_cutStore, by decide, by decide, isToken_keyA,
    by decide, by decide, by decide, by decide, by decide, by decide, by decide, by decide⟩

/-- C11 fails on the code.  In Normal mode after the same power loss, the
valid frame `keyA` is not a live entry (`addKey(keyA)` never returned), and
the iteration pulses the open pair (pins 2, 3) and sounds 2000 Hz.  The same
happens for `keyB`, never passed to `addKey`, once `removeKey` has copied its
bytes from behind the array into slot 9. -/
theorem c11_unregistered_token_opens_lock :
    (bootNormal.mode = MODE_NORMAL ∧ ValidFrame (fun _ => 16) frameAOpen ∧
      frameAOpen.key_buf ∉ liveKeys bootNormal ∧
      (lockHandler bootNormal keyA false true).1 = true ∧
      newEvents bootNormal (loop (fun _ => 16) bootNormal frameAOpen) =
        readerEvents frameAOpen ++ [Event.digitalRead LOCK_STATUS_PIN false] ++
          pulseEvents 2 3 ++
          [Event.digitalRead LOCK_STATUS_PIN true, Event.tone BUZZER_PIN HIGH_TONE,
            Event.delay READER_DELAY, Event.noTone BUZZER_PIN]) ∧
    ((runOps strayState [Op.add keyA, Op.remove keyA]).mode = MODE_NORMAL ∧
      ValidFrame (fun _ => 26) frameBOpen ∧
      frameBOpen.key_buf ∉ liveKeys (runOps strayState [Op.add keyA, Op.remove keyA]) ∧
      registeredAfter keyB strayState false [Op.add keyA, Op.remove keyA] = false ∧
      newEvents (runOps strayState [Op.add keyA, Op.remove keyA])
        (loop (fun _ => 26) (runOps strayState [Op.add keyA, Op.remove keyA]) frameBOpen) =
        readerEvents frameBOpen ++ [Event.digitalRead LOCK_STATUS_PIN false] ++
          pulseEvents 2 3 ++
          [Event.digitalRead LOCK_STATUS_PIN true, Event.tone BUZZER_PIN HIGH_TONE,
            Event.delay READER_DELAY, Event.noTone BUZZER_PIN]) := by
  have hb : ValidFrame (fun _ => 26) frameBOpen := by simp [ValidFrame, frameBOpen, keyB]
  refine ⟨⟨by decide, validFrame_frameAOpen, by decide, by decide, by decide⟩,
    ⟨by decide, hb, by decide, by decide, by decide⟩⟩

/-- C13 fails on the code.  After the same power loss and a boot in Remove
mode the predicate holds (`key_count = 0`, no live entry); one iteration of
`loop` with the valid frame `keyA` runs `removeKey`, whose `key_count--`
wraps to 255: the predicate no longer holds, and the persisted count byte is
255, a value that `setup` treats as incorrect and answers with a wipe. -/
theorem c13_key_count_wraps :
    SlotsWF bootRemove ∧ IsToken keyA ∧ CountDistinct bootRemove ∧
    bootRemove.mode = MODE_REMOVE ∧ ValidFrame (fun _ => 16) frameAOpen ∧
    (loop (fun _ => 16) bootRemove frameAOpen).key_count = 255 ∧
    ¬ CountDistinct (loop (fun _ => 16) bootRemove frameAOpen) ∧
    (loop (fun _ => 16) bootRemove frameAOpen).eeprom KEY_CNT_ADDR > KEY_MAX_CNT ∧
    (setup (reboot (loop (fun _ => 16) bootRemove frameAOpen)) true true true).key_count = 0 := by
  refine ⟨slotsWF_setup _ _ _ _ slotsWF_cutStore, isToken_keyA, ⟨by decide, by decide⟩,
    by decide, validFrame_frameAOpen, by decide, ?_, by decide, by decide⟩
  intro h
  exact absurd h.1 (by decide)

end CarRfid
